import Mathlib

/-!
Shallow embedding of the free-fly camera controller of `src/main.cpp`
(model viewer), together with the pieces of glm it calls:
vector/quaternion arithmetic, `mat3_cast`/`mat4_cast`, `quat_cast`,
`normalize`, `lookAtRH`, `translate`.  Floating-point numbers are
modelled as real numbers; machine `min` is the real `min`.
-/

namespace MV

open scoped Classical

/-- Two-component vector, glm::vec2 with float components modelled as reals. -/
structure Vec2 where
  x : ℝ
  y : ℝ

/-- Three-component vector, glm::vec3. -/
structure Vec3 where
  x : ℝ
  y : ℝ
  z : ℝ

instance : Add Vec3 := ⟨fun a b => ⟨a.x + b.x, a.y + b.y, a.z + b.z⟩⟩

instance : Sub Vec3 := ⟨fun a b => ⟨a.x - b.x, a.y - b.y, a.z - b.z⟩⟩

instance : Neg Vec3 := ⟨fun a => ⟨-a.x, -a.y, -a.z⟩⟩

instance : SMul ℝ Vec3 := ⟨fun c a => ⟨c * a.x, c * a.y, c * a.z⟩⟩

/-- glm dot product on vec3. -/
def Vec3.dot (a b : Vec3) : ℝ := a.x * b.x + a.y * b.y + a.z * b.z

/-- glm cross product. -/
def Vec3.cross (a b : Vec3) : Vec3 :=
  ⟨a.y * b.z - a.z * b.y, a.z * b.x - a.x * b.z, a.x * b.y - a.y * b.x⟩

/-- glm length(v) = sqrt(dot(v, v)). -/
noncomputable def Vec3.length (v : Vec3) : ℝ := Real.sqrt (Vec3.dot v v)

/-- glm normalize(v) = v * inversesqrt(dot(v, v)). -/
noncomputable def Vec3.normalize (v : Vec3) : Vec3 :=
  (1 / Real.sqrt (Vec3.dot v v)) • v

/-- The zero vector, glm::zero of vec3. -/
def vzero : Vec3 := ⟨0, 0, 0⟩

/-- Quaternion (w, x, y, z), glm::quat. -/
structure Quat where
  w : ℝ
  x : ℝ
  y : ℝ
  z : ℝ

/-- Hamilton product, glm qua operator*. -/
instance : Mul Quat :=
  ⟨fun p q =>
    ⟨p.w * q.w - p.x * q.x - p.y * q.y - p.z * q.z,
     p.w * q.x + p.x * q.w + p.y * q.z - p.z * q.y,
     p.w * q.y + p.y * q.w + p.z * q.x - p.x * q.z,
     p.w * q.z + p.z * q.w + p.x * q.y - p.y * q.x⟩⟩

/-- Squared norm of a quaternion, glm dot(q, q). -/
def Quat.normSq (q : Quat) : ℝ := q.w * q.w + q.x * q.x + q.y * q.y + q.z * q.z

/-- glm length(q) = sqrt(dot(q, q)). -/
noncomputable def Quat.length (q : Quat) : ℝ := Real.sqrt q.normSq

/-- glm normalize on quaternions: if length is not positive the identity
quaternion is returned, otherwise every component is divided by the length. -/
noncomputable def qNormalize (q : Quat) : Quat :=
  if q.length ≤ 0 then ⟨1, 0, 0, 0⟩
  else ⟨q.w * (1 / q.length), q.x * (1 / q.length),
        q.y * (1 / q.length), q.z * (1 / q.length)⟩

/-- glm qua constructor from Euler angles (pitch, yaw, roll):
half-angle cosines and sines combined per axis. -/
noncomputable def quatFromEuler (e : Vec3) : Quat :=
  let cx := Real.cos (e.x * (1 / 2))
  let cy := Real.cos (e.y * (1 / 2))
  let cz := Real.cos (e.z * (1 / 2))
  let sx := Real.sin (e.x * (1 / 2))
  let sy := Real.sin (e.y * (1 / 2))
  let sz := Real.sin (e.z * (1 / 2))
  ⟨cx * cy * cz + sx * sy * sz,
   sx * cy * cz - cx * sy * sz,
   cx * sy * cz + sx * cy * sz,
   cx * cy * sz - sx * sy * cz⟩

/-- Column-major 3x3 matrix: field mCR is entry m[C][R] (column C, row R)
in glm indexing. -/
structure Mat3 where
  m00 : ℝ
  m01 : ℝ
  m02 : ℝ
  m10 : ℝ
  m11 : ℝ
  m12 : ℝ
  m20 : ℝ
  m21 : ℝ
  m22 : ℝ

/-- glm mat3_cast: rotation matrix of a quaternion. -/
def mat3_cast (q : Quat) : Mat3 where
  m00 := 1 - 2 * (q.y * q.y + q.z * q.z)
  m01 := 2 * (q.x * q.y + q.w * q.z)
  m02 := 2 * (q.x * q.z - q.w * q.y)
  m10 := 2 * (q.x * q.y - q.w * q.z)
  m11 := 1 - 2 * (q.x * q.x + q.z * q.z)
  m12 := 2 * (q.y * q.z + q.w * q.x)
  m20 := 2 * (q.x * q.z + q.w * q.y)
  m21 := 2 * (q.y * q.z - q.w * q.x)
  m22 := 1 - 2 * (q.x * q.x + q.y * q.y)

/-- Column-major 4x4 matrix: field mCR is entry m[C][R] (column C, row R). -/
structure Mat4 where
  m00 : ℝ
  m01 : ℝ
  m02 : ℝ
  m03 : ℝ
  m10 : ℝ
  m11 : ℝ
  m12 : ℝ
  m13 : ℝ
  m20 : ℝ
  m21 : ℝ
  m22 : ℝ
  m23 : ℝ
  m30 : ℝ
  m31 : ℝ
  m32 : ℝ
  m33 : ℝ

/-- glm mat4_cast: the rotation in the upper-left 3x3 block, last row and
column as in the identity matrix. -/
def mat4_cast (q : Quat) : Mat4 where
  m00 := (mat3_cast q).m00
  m01 := (mat3_cast q).m01
  m02 := (mat3_cast q).m02
  m03 := 0
  m10 := (mat3_cast q).m10
  m11 := (mat3_cast q).m11
  m12 := (mat3_cast q).m12
  m13 := 0
  m20 := (mat3_cast q).m20
  m21 := (mat3_cast q).m21
  m22 := (mat3_cast q).m22
  m23 := 0
  m30 := 0
  m31 := 0
  m32 := 0
  m33 := 1

/-- glm mat4 product: (A*B)[c][r] = sum over k of A[k][r] * B[c][k]. -/
def mat4mul (a b : Mat4) : Mat4 where
  m00 := a.m00 * b.m00 + a.m10 * b.m01 + a.m20 * b.m02 + a.m30 * b.m03
  m01 := a.m01 * b.m00 + a.m11 * b.m01 + a.m21 * b.m02 + a.m31 * b.m03
  m02 := a.m02 * b.m00 + a.m12 * b.m01 + a.m22 * b.m02 + a.m32 * b.m03
  m03 := a.m03 * b.m00 + a.m13 * b.m01 + a.m23 * b.m02 + a.m33 * b.m03
  m10 := a.m00 * b.m10 + a.m10 * b.m11 + a.m20 * b.m12 + a.m30 * b.m13
  m11 := a.m01 * b.m10 + a.m11 * b.m11 + a.m21 * b.m12 + a.m31 * b.m13
  m12 := a.m02 * b.m10 + a.m12 * b.m11 + a.m22 * b.m12 + a.m32 * b.m13
  m13 := a.m03 * b.m10 + a.m13 * b.m11 + a.m23 * b.m12 + a.m33 * b.m13
  m20 := a.m00 * b.m20 + a.m10 * b.m21 + a.m20 * b.m22 + a.m30 * b.m23
  m21 := a.m01 * b.m20 + a.m11 * b.m21 + a.m21 * b.m22 + a.m31 * b.m23
  m22 := a.m02 * b.m20 + a.m12 * b.m21 + a.m22 * b.m22 + a.m32 * b.m23
  m23 := a.m03 * b.m20 + a.m13 * b.m21 + a.m23 * b.m22 + a.m33 * b.m23
  m30 := a.m00 * b.m30 + a.m10 * b.m31 + a.m20 * b.m32 + a.m30 * b.m33
  m31 := a.m01 * b.m30 + a.m11 * b.m31 + a.m21 * b.m32 + a.m31 * b.m33
  m32 := a.m02 * b.m30 + a.m12 * b.m31 + a.m22 * b.m32 + a.m32 * b.m33
  m33 := a.m03 * b.m30 + a.m13 * b.m31 + a.m23 * b.m32 + a.m33 * b.m33

/-- glm translate(mat4(1), v): identity with v in the fourth column. -/
def translate (v : Vec3) : Mat4 where
  m00 := 1
  m01 := 0
  m02 := 0
  m03 := 0
  m10 := 0
  m11 := 1
  m12 := 0
  m13 := 0
  m20 := 0
  m21 := 0
  m22 := 1
  m23 := 0
  m30 := v.x
  m31 := v.y
  m32 := v.z
  m33 := 1

/-- Upper-left 3x3 block of a 4x4 matrix (glm mat3(mat4)). -/
def upper3 (m : Mat4) : Mat3 where
  m00 := m.m00
  m01 := m.m01
  m02 := m.m02
  m10 := m.m10
  m11 := m.m11
  m12 := m.m12
  m20 := m.m20
  m21 := m.m21
  m22 := m.m22

/-- glm quat_cast on a 3x3 matrix.  The source scans the four candidate
squared components sequentially, keeping the strictly larger one, so the
final pick is: index 3 if fourZ beats the running maximum of the first
three, else index 2 if fourY beats the maximum of the first two, else
index 1 if fourX beats fourW, else index 0. -/
noncomputable def quat_cast3 (m : Mat3) : Quat :=
  let fourX := m.m00 - m.m11 - m.m22
  let fourY := m.m11 - m.m00 - m.m22
  let fourZ := m.m22 - m.m00 - m.m11
  let fourW := m.m00 + m.m11 + m.m22
  if fourZ > max (max fourW fourX) fourY then
    let v := Real.sqrt (fourZ + 1) * (1 / 2)
    let mult := (1 / 4) / v
    ⟨(m.m01 - m.m10) * mult, (m.m20 + m.m02) * mult, (m.m12 + m.m21) * mult, v⟩
  else if fourY > max fourW fourX then
    let v := Real.sqrt (fourY + 1) * (1 / 2)
    let mult := (1 / 4) / v
    ⟨(m.m20 - m.m02) * mult, (m.m01 + m.m10) * mult, v, (m.m12 + m.m21) * mult⟩
  else if fourX > fourW then
    let v := Real.sqrt (fourX + 1) * (1 / 2)
    let mult := (1 / 4) / v
    ⟨(m.m12 - m.m21) * mult, v, (m.m01 + m.m10) * mult, (m.m20 + m.m02) * mult⟩
  else
    let v := Real.sqrt (fourW + 1) * (1 / 2)
    let mult := (1 / 4) / v
    ⟨v, (m.m12 - m.m21) * mult, (m.m20 - m.m02) * mult, (m.m01 - m.m10) * mult⟩

/-- glm quat_cast on a 4x4 matrix uses the upper-left 3x3 block. -/
noncomputable def quat_cast4 (m : Mat4) : Quat := quat_cast3 (upper3 m)

/-- glm lookAtRH(eye, center, up). -/
noncomputable def lookAt (eye center up : Vec3) : Mat4 :=
  let f := Vec3.normalize (center - eye)
  let s := Vec3.normalize (Vec3.cross f up)
  let u := Vec3.cross s f
  { m00 := s.x
    m01 := u.x
    m02 := -f.x
    m03 := 0
    m10 := s.y
    m11 := u.y
    m12 := -f.y
    m13 := 0
    m20 := s.z
    m21 := u.z
    m22 := -f.z
    m23 := 0
    m30 := -(Vec3.dot s eye)
    m31 := -(Vec3.dot u eye)
    m32 := Vec3.dot f eye
    m33 := 1 }

/-- Camera pose: position and orientation, from src/main.cpp. -/
structure Camera where
  pos : Vec3
  orientation : Quat

/-- Mouse state: normalized pointer position and left-button flag. -/
structure MouseState where
  pos : Vec2
  pressedLeft : Bool

/-- CameraMovement from src/main.cpp: movement flags, tuning constants and
the accumulated velocity moveSpeed. -/
structure CameraMovement where
  forward : Bool
  backward : Bool
  left : Bool
  right : Bool
  up : Bool
  down : Bool
  fastSpeed : Bool
  resetUp : Bool
  lookSpeed : ℝ
  acceleration : ℝ
  damping : ℝ
  maxSpeed : ℝ
  fastCoef : ℝ
  moveSpeed : Vec3

/-- getViewMatrix: rotation of the orientation times translation by -pos. -/
noncomputable def getViewMatrix (camera : Camera) : Mat4 :=
  mat4mul (mat4_cast camera.orientation) (translate (-camera.pos))

/-- setUpVector: extract the view direction from the view matrix and rebuild
the orientation from a look-at matrix toward pos + dir with the given up. -/
noncomputable def setUpVector (camera : Camera) (up : Vec3) : Camera :=
  let view := getViewMatrix camera
  let dir : Vec3 := ⟨-view.m02, -view.m12, -view.m22⟩
  { camera with
    orientation := quat_cast4 (lookAt camera.pos (camera.pos + dir) up) }

/-- The camera forward vector read off the cast matrix in updateCamera. -/
def camForward (q : Quat) : Vec3 :=
  ⟨-(mat4_cast q).m02, -(mat4_cast q).m12, -(mat4_cast q).m22⟩

/-- The camera right vector read off the cast matrix in updateCamera. -/
def camRight (q : Quat) : Vec3 :=
  ⟨(mat4_cast q).m00, (mat4_cast q).m10, (mat4_cast q).m20⟩

/-- The camera up vector, cross(right, forward), in updateCamera. -/
def camUp (q : Quat) : Vec3 := Vec3.cross (camRight q) (camForward q)

/-- Step 1 of updateCamera: reset the up vector to world (0,1,0) when the
global resetUp flag is held. -/
noncomputable def resetStep (g : CameraMovement) (camera : Camera) : Camera :=
  if g.resetUp then setUpVector camera ⟨0, 1, 0⟩ else camera

/-- Step 2 of updateCamera: while the global left button is pressed, compose
the orientation with a quaternion built from the pointer delta and
renormalize.  lookSpeed is read from the movement parameter. -/
noncomputable def lookStep (ms : MouseState) (movement : CameraMovement)
    (newState oldState : MouseState) (camera : Camera) : Camera :=
  if ms.pressedLeft then
    { camera with
      orientation :=
        qNormalize
          (quatFromEuler
              ⟨movement.lookSpeed * (newState.pos.y - oldState.pos.y),
               movement.lookSpeed * (newState.pos.x - oldState.pos.x), 0⟩ *
            camera.orientation) }
  else camera

/-- Orientation-affecting prefix of updateCamera: reset then look. -/
noncomputable def postLookCamera (g : CameraMovement) (ms : MouseState)
    (camera : Camera) (newState oldState : MouseState)
    (movement : CameraMovement) : Camera :=
  lookStep ms movement newState oldState (resetStep g camera)

/-- Accumulated acceleration direction of updateCamera: sum the selected
camera basis vectors by the global flags, then scale by fastCoef when the
global fastSpeed flag is held. -/
def accelVec (g : CameraMovement) (q : Quat) : Vec3 :=
  let a : Vec3 := vzero
  let a := if g.forward then a + camForward q else a
  let a := if g.backward then a - camForward q else a
  let a := if g.left then a - camRight q else a
  let a := if g.right then a + camRight q else a
  let a := if g.up then a + camUp q else a
  let a := if g.down then a - camUp q else a
  if g.fastSpeed then g.fastCoef • a else a

/-- Everything updateCamera mutates: the camera, the old mouse state and the
global CameraMovement (whose moveSpeed field carries the velocity). -/
structure UpdateResult where
  camera : Camera
  oldState : MouseState
  movement : CameraMovement

/-- updateCamera from src/main.cpp.  `g` is the file-scope global
cameraMovement, `ms` the file-scope global mouseState; `newState`,
`oldState` and `movement` are the parameters.  Flags are read from the
globals; the parameters contribute only lookSpeed and the pointer
positions. -/
noncomputable def updateCamera (g : CameraMovement) (ms : MouseState)
    (camera : Camera) (deltaSeconds : ℝ) (newState oldState : MouseState)
    (movement : CameraMovement) : UpdateResult :=
  let camera := postLookCamera g ms camera newState oldState movement
  let oldState := newState
  let accel := accelVec g camera.orientation
  if accel = vzero then
    { camera := camera
      oldState := oldState
      movement :=
        { g with
          moveSpeed :=
            g.moveSpeed - min (1 / g.damping * deltaSeconds) 1 • g.moveSpeed } }
  else
    let sp := g.moveSpeed + (g.acceleration * deltaSeconds) • accel
    let cap := if g.fastSpeed then g.maxSpeed * g.fastCoef else g.maxSpeed
    let sp := if sp.length > cap then cap • sp.normalize else sp
    { camera := { camera with pos := camera.pos + deltaSeconds • sp }
      oldState := oldState
      movement := { g with moveSpeed := sp } }

/-- Per-frame persistent state of the main loop: the camera, the previous
mouse state and the accumulated velocity held in the global struct. -/
structure SimState where
  camera : Camera
  oldState : MouseState
  moveSpeed : Vec3

/-- Per-frame inputs: the global flag/constant fields (moveSpeed inside `g`
is ignored and replaced by the state) and the global mouse state, plus the
frame time. -/
structure TickInput where
  g : CameraMovement
  ms : MouseState
  dt : ℝ

/-- One main-loop frame: updateCamera(camera, dt, mouseState, oldMouseState,
cameraMovement), with the globals aliased to the parameters as in main. -/
noncomputable def tick (s : SimState) (i : TickInput) : SimState :=
  let g := { i.g with moveSpeed := s.moveSpeed }
  let r := updateCamera g i.ms s.camera i.dt i.ms s.oldState g
  ⟨r.camera, r.oldState, r.movement.moveSpeed⟩

/-- View direction encoded by an orientation quaternion (third row of its
rotation matrix, negated) as extracted by setUpVector and updateCamera. -/
def dirOfQuat (q : Quat) : Vec3 :=
  ⟨-(mat3_cast q).m02, -(mat3_cast q).m12, -(mat3_cast q).m22⟩

/-- Velocity before the clamp in the accelerating branch of updateCamera. -/
noncomputable def preClampSpeed (g : CameraMovement) (ms : MouseState)
    (camera : Camera) (deltaSeconds : ℝ) (newState oldState : MouseState)
    (movement : CameraMovement) : Vec3 :=
  g.moveSpeed + (g.acceleration * deltaSeconds) •
    accelVec g (postLookCamera g ms camera newState oldState movement).orientation

/-- Speed cap used by the accelerating branch of updateCamera. -/
noncomputable def speedCap (g : CameraMovement) : ℝ :=
  if g.fastSpeed then g.maxSpeed * g.fastCoef else g.maxSpeed

attribute [ext] Vec2 Vec3 Quat Mat3 Mat4

@[simp] lemma Vec3.add_def (a b : Vec3) :
    a + b = ⟨a.x + b.x, a.y + b.y, a.z + b.z⟩ := rfl

@[simp] lemma Vec3.sub_def (a b : Vec3) :
    a - b = ⟨a.x - b.x, a.y - b.y, a.z - b.z⟩ := rfl

@[simp] lemma Vec3.neg_def (a : Vec3) : -a = ⟨-a.x, -a.y, -a.z⟩ := rfl

@[simp] lemma Vec3.smul_def (c : ℝ) (a : Vec3) :
    c • a = ⟨c * a.x, c * a.y, c * a.z⟩ := rfl

@[simp] lemma Quat.mul_def (p q : Quat) :
    p * q =
      ⟨p.w * q.w - p.x * q.x - p.y * q.y - p.z * q.z,
       p.w * q.x + p.x * q.w + p.y * q.z - p.z * q.y,
       p.w * q.y + p.y * q.w + p.z * q.x - p.x * q.z,
       p.w * q.z + p.z * q.w + p.x * q.y - p.y * q.x⟩ := rfl

lemma Vec3.dot_self_nonneg (v : Vec3) : 0 ≤ Vec3.dot v v := by
  unfold Vec3.dot; nlinarith [sq_nonneg v.x, sq_nonneg v.y, sq_nonneg v.z]

lemma Vec3.length_nonneg (v : Vec3) : 0 ≤ v.length := Real.sqrt_nonneg _

lemma Vec3.length_smul (c : ℝ) (v : Vec3) :
    (c • v).length = |c| * v.length := by
  unfold Vec3.length
  have h : Vec3.dot (c • v) (c • v) = c ^ 2 * Vec3.dot v v := by
    simp only [Vec3.smul_def]; unfold Vec3.dot; ring
  rw [h, Real.sqrt_mul (sq_nonneg c), Real.sqrt_sq_eq_abs]

lemma Vec3.length_sq (v : Vec3) : v.length ^ 2 = Vec3.dot v v := by
  unfold Vec3.length
  exact Real.sq_sqrt (Vec3.dot_self_nonneg v)

/-- The old mouse state is overwritten with the new state in both branches. -/
lemma updateCamera_oldState (g : CameraMovement) (ms : MouseState)
    (camera : Camera) (dt : ℝ) (ns os : MouseState) (mv : CameraMovement) :
    (updateCamera g ms camera dt ns os mv).oldState = ns := by
  simp only [updateCamera]
  split <;> rfl

/-- The orientation produced by updateCamera is the post-look orientation:
the velocity branches only move the position. -/
lemma updateCamera_orientation (g : CameraMovement) (ms : MouseState)
    (camera : Camera) (dt : ℝ) (ns os : MouseState) (mv : CameraMovement) :
    (updateCamera g ms camera dt ns os mv).camera.orientation
      = (postLookCamera g ms camera ns os mv).orientation := by
  simp only [updateCamera]
  split <;> rfl

/-- With the reset flag clear and the button up, the orientation prefix of
updateCamera leaves the camera untouched. -/
lemma postLookCamera_no_input (g : CameraMovement) (ms : MouseState)
    (camera : Camera) (ns os : MouseState) (mv : CameraMovement)
    (hr : g.resetUp = false) (hp : ms.pressedLeft = false) :
    postLookCamera g ms camera ns os mv = camera := by
  unfold postLookCamera lookStep resetStep
  rw [hr, hp]
  simp

/-- Neither orientation step moves the camera position. -/
lemma postLookCamera_pos (g : CameraMovement) (ms : MouseState)
    (camera : Camera) (ns os : MouseState) (mv : CameraMovement) :
    (postLookCamera g ms camera ns os mv).pos = camera.pos := by
  unfold postLookCamera lookStep resetStep setUpVector
  split <;> split <;> rfl

/-- Velocity after a decay-branch call. -/
lemma updateCamera_moveSpeed_decay (g : CameraMovement) (ms : MouseState)
    (camera : Camera) (dt : ℝ) (ns os : MouseState) (mv : CameraMovement)
    (hacc : accelVec g (postLookCamera g ms camera ns os mv).orientation = vzero) :
    (updateCamera g ms camera dt ns os mv).movement.moveSpeed
      = g.moveSpeed - min (1 / g.damping * dt) 1 • g.moveSpeed := by
  simp only [updateCamera]
  rw [if_pos hacc]

/-- Position after a decay-branch call. -/
lemma updateCamera_pos_decay (g : CameraMovement) (ms : MouseState)
    (camera : Camera) (dt : ℝ) (ns os : MouseState) (mv : CameraMovement)
    (hacc : accelVec g (postLookCamera g ms camera ns os mv).orientation = vzero) :
    (updateCamera g ms camera dt ns os mv).camera.pos
      = (postLookCamera g ms camera ns os mv).pos := by
  simp only [updateCamera]
  rw [if_pos hacc]

/-- Velocity after an accelerating-branch call. -/
lemma updateCamera_moveSpeed_accel (g : CameraMovement) (ms : MouseState)
    (camera : Camera) (dt : ℝ) (ns os : MouseState) (mv : CameraMovement)
    (hacc : accelVec g (postLookCamera g ms camera ns os mv).orientation ≠ vzero) :
    (updateCamera g ms camera dt ns os mv).movement.moveSpeed
      = if (preClampSpeed g ms camera dt ns os mv).length > speedCap g
          then speedCap g • (preClampSpeed g ms camera dt ns os mv).normalize
          else preClampSpeed g ms camera dt ns os mv := by
  simp only [updateCamera]
  rw [if_neg hacc]
  rfl

/-- Position after an accelerating-branch call. -/
lemma updateCamera_pos_accel (g : CameraMovement) (ms : MouseState)
    (camera : Camera) (dt : ℝ) (ns os : MouseState) (mv : CameraMovement)
    (hacc : accelVec g (postLookCamera g ms camera ns os mv).orientation ≠ vzero) :
    (updateCamera g ms camera dt ns os mv).camera.pos
      = (postLookCamera g ms camera ns os mv).pos + dt •
          (if (preClampSpeed g ms camera dt ns os mv).length > speedCap g
            then speedCap g • (preClampSpeed g ms camera dt ns os mv).normalize
            else preClampSpeed g ms camera dt ns os mv) := by
  simp only [updateCamera]
  rw [if_neg hacc]
  rfl

/-- The camera returned by updateCamera, as one branching expression. -/
lemma updateCamera_camera (g : CameraMovement) (ms : MouseState)
    (camera : Camera) (dt : ℝ) (ns os : MouseState) (mv : CameraMovement) :
    (updateCamera g ms camera dt ns os mv).camera
      = if accelVec g (postLookCamera g ms camera ns os mv).orientation = vzero
          then postLookCamera g ms camera ns os mv
          else
            { pos :=
                (postLookCamera g ms camera ns os mv).pos + dt •
                  (if (preClampSpeed g ms camera dt ns os mv).length > speedCap g
                    then speedCap g • (preClampSpeed g ms camera dt ns os mv).normalize
                    else preClampSpeed g ms camera dt ns os mv)
              orientation := (postLookCamera g ms camera ns os mv).orientation } := by
  simp only [updateCamera]
  by_cases h : accelVec g (postLookCamera g ms camera ns os mv).orientation = vzero
  · rw [if_pos h, if_pos h]
  · rw [if_neg h, if_neg h]
    rfl

/-- The movement state returned by updateCamera, as one branching
expression: only the moveSpeed field of the global struct changes. -/
lemma updateCamera_movement (g : CameraMovement) (ms : MouseState)
    (camera : Camera) (dt : ℝ) (ns os : MouseState) (mv : CameraMovement) :
    (updateCamera g ms camera dt ns os mv).movement
      = { g with moveSpeed :=
            if accelVec g (postLookCamera g ms camera ns os mv).orientation = vzero
              then g.moveSpeed - min (1 / g.damping * dt) 1 • g.moveSpeed
              else
                if (preClampSpeed g ms camera dt ns os mv).length > speedCap g
                  then speedCap g • (preClampSpeed g ms camera dt ns os mv).normalize
                  else preClampSpeed g ms camera dt ns os mv } := by
  simp only [updateCamera]
  by_cases h : accelVec g (postLookCamera g ms camera ns os mv).orientation = vzero
  · rw [if_pos h, if_pos h]
  · rw [if_neg h, if_neg h]
    rfl

/-- Concrete fixture: camera at the origin with the identity orientation. -/
noncomputable def idCamera : Camera := ⟨⟨0, 0, 0⟩, ⟨1, 0, 0, 0⟩⟩

/-- Concrete fixture: pointer at the origin, button up. -/
noncomputable def msUp : MouseState := ⟨⟨0, 0⟩, false⟩

/-- Concrete fixture: pointer at the origin, button down. -/
noncomputable def msDown : MouseState := ⟨⟨0, 0⟩, true⟩

/-- Concrete fixture: no flags held, default tuning constants, stored
velocity (5, 0, 0). -/
noncomputable def allOffMovement : CameraMovement :=
  ⟨false, false, false, false, false, false, false, false,
   4, 150, 1 / 5, 10, 10, ⟨5, 0, 0⟩⟩

lemma camForward_id : camForward ⟨1, 0, 0, 0⟩ = ⟨0, 0, -1⟩ := by
  norm_num [camForward, mat4_cast, mat3_cast]

/-- A nonnegative rescale of a normalized nonzero vector has the scale as
its length. -/
lemma Vec3.length_normalize_smul (c : ℝ) (v : Vec3) (hc : 0 ≤ c)
    (hv : 0 < v.length) :
    (c • v.normalize).length = c := by
  unfold Vec3.normalize
  rw [Vec3.length_smul, Vec3.length_smul]
  have h1 : Real.sqrt (Vec3.dot v v) = v.length := rfl
  rw [h1, abs_of_nonneg hc, abs_of_nonneg (by positivity), one_div,
      inv_mul_cancel₀ (ne_of_gt hv), mul_one]

/-- Concrete fixture: allOffMovement with both forward and backward held
and an out-of-cap stored velocity. -/
noncomputable def cancelMovement : CameraMovement :=
  { allOffMovement with
    forward := true
    backward := true
    moveSpeed := ⟨0, 0, -20⟩ }

/-- Concrete fixture: allOffMovement with forward held and an out-of-cap
stored velocity. -/
noncomputable def fwdMovement : CameraMovement :=
  { allOffMovement with
    forward := true
    moveSpeed := ⟨0, 0, -20⟩ }

lemma accelVec_allOff : accelVec allOffMovement idCamera.orientation = vzero := by
  simp [accelVec, allOffMovement, vzero]

lemma accelVec_cancel : accelVec cancelMovement idCamera.orientation = vzero := by
  simp [accelVec, cancelMovement, allOffMovement, vzero, idCamera]

lemma accelVec_fwd : accelVec fwdMovement idCamera.orientation = ⟨0, 0, -1⟩ := by
  simp [accelVec, fwdMovement, allOffMovement, vzero, idCamera]
  norm_num [camForward, mat4_cast, mat3_cast]

lemma length_v20 : (⟨(0 : ℝ), 0, -20⟩ : Vec3).length = 20 := by
  unfold Vec3.length Vec3.dot
  rw [show ((0:ℝ) * 0 + 0 * 0 + -20 * -20) = 20 ^ 2 by norm_num]
  exact Real.sqrt_sq (by norm_num)

/-- C1: in a decay-branch call (zero accumulated acceleration direction) the
velocity is multiplied by the factor 1 - min(deltaSeconds/damping, 1); for
deltaSeconds at least 0 and positive damping this factor lies in the unit
interval, so the velocity magnitude does not grow and no component crosses
zero into the reversed sign. -/
theorem decay_factor_bounds_and_monotone (g : CameraMovement)
    (ms : MouseState) (camera : Camera) (dt : ℝ) (ns os : MouseState)
    (mv : CameraMovement)
    (hacc : accelVec g (postLookCamera g ms camera ns os mv).orientation = vzero)
    (hdt : 0 ≤ dt) (hdamp : 0 < g.damping) :
    (updateCamera g ms camera dt ns os mv).movement.moveSpeed
        = (1 - min (1 / g.damping * dt) 1) • g.moveSpeed
    ∧ 0 ≤ 1 - min (1 / g.damping * dt) 1
    ∧ 1 - min (1 / g.damping * dt) 1 ≤ 1
    ∧ ((updateCamera g ms camera dt ns os mv).movement.moveSpeed).length
        ≤ g.moveSpeed.length
    ∧ |((updateCamera g ms camera dt ns os mv).movement.moveSpeed).x|
        ≤ |g.moveSpeed.x|
    ∧ 0 ≤ ((updateCamera g ms camera dt ns os mv).movement.moveSpeed).x
        * g.moveSpeed.x
    ∧ |((updateCamera g ms camera dt ns os mv).movement.moveSpeed).y|
        ≤ |g.moveSpeed.y|
    ∧ 0 ≤ ((updateCamera g ms camera dt ns os mv).movement.moveSpeed).y
        * g.moveSpeed.y
    ∧ |((updateCamera g ms camera dt ns os mv).movement.moveSpeed).z|
        ≤ |g.moveSpeed.z|
    ∧ 0 ≤ ((updateCamera g ms camera dt ns os mv).movement.moveSpeed).z
        * g.moveSpeed.z := by
  have hmv := updateCamera_moveSpeed_decay g ms camera dt ns os mv hacc
  have heq : (updateCamera g ms camera dt ns os mv).movement.moveSpeed
      = (1 - min (1 / g.damping * dt) 1) • g.moveSpeed := by
    rw [hmv]; ext <;> simp <;> ring
  have hm0 : 0 ≤ min (1 / g.damping * dt) 1 := le_min (by positivity) zero_le_one
  have hm1 : min (1 / g.damping * dt) 1 ≤ 1 := min_le_right _ _
  have hf0 : (0:ℝ) ≤ 1 - min (1 / g.damping * dt) 1 := by linarith
  refine ⟨heq, hf0, by linarith, ?_, ?_, ?_, ?_, ?_, ?_, ?_⟩
  · rw [heq, Vec3.length_smul, abs_of_nonneg hf0]
    nlinarith [Vec3.length_nonneg g.moveSpeed]
  · rw [heq]; simp only [Vec3.smul_def]
    rw [abs_mul, abs_of_nonneg hf0]
    nlinarith [abs_nonneg g.moveSpeed.x]
  · rw [heq]; simp only [Vec3.smul_def]
    nlinarith [mul_nonneg hf0 (mul_self_nonneg g.moveSpeed.x)]
  · rw [heq]; simp only [Vec3.smul_def]
    rw [abs_mul, abs_of_nonneg hf0]
    nlinarith [abs_nonneg g.moveSpeed.y]
  · rw [heq]; simp only [Vec3.smul_def]
    nlinarith [mul_nonneg hf0 (mul_self_nonneg g.moveSpeed.y)]
  · rw [heq]; simp only [Vec3.smul_def]
    rw [abs_mul, abs_of_nonneg hf0]
    nlinarith [abs_nonneg g.moveSpeed.z]
  · rw [heq]; simp only [Vec3.smul_def]
    nlinarith [mul_nonneg hf0 (mul_self_nonneg g.moveSpeed.z)]

/-- Witness for the decay theorem at a concrete no-input call. -/
theorem decay_factor_bounds_witness :
    accelVec allOffMovement (postLookCamera allOffMovement msUp idCamera
        msUp msUp allOffMovement).orientation = vzero
    ∧ (0:ℝ) ≤ 1 / 10 ∧ 0 < allOffMovement.damping
    ∧ (updateCamera allOffMovement msUp idCamera (1 / 10) msUp msUp
          allOffMovement).movement.moveSpeed
        = (1 - min (1 / allOffMovement.damping * (1 / 10)) 1)
            • allOffMovement.moveSpeed := by
  have hacc : accelVec allOffMovement (postLookCamera allOffMovement msUp
      idCamera msUp msUp allOffMovement).orientation = vzero := by
    rw [postLookCamera_no_input _ _ _ _ _ _ rfl rfl]; exact accelVec_allOff
  exact ⟨hacc, by norm_num, by norm_num [allOffMovement],
    (decay_factor_bounds_and_monotone _ _ _ _ _ _ _ hacc (by norm_num)
      (by norm_num [allOffMovement])).1⟩

/-- C3: in a decay-branch call the position is untouched even with nonzero
stored velocity, while the velocity decays, the previous pointer is
overwritten and the orientation is the post-look orientation. -/
theorem pure_decay_keeps_position (g : CameraMovement) (ms : MouseState)
    (camera : Camera) (dt : ℝ) (ns os : MouseState) (mv : CameraMovement)
    (hacc : accelVec g (postLookCamera g ms camera ns os mv).orientation = vzero) :
    (updateCamera g ms camera dt ns os mv).camera.pos = camera.pos
    ∧ (updateCamera g ms camera dt ns os mv).movement.moveSpeed
        = g.moveSpeed - min (1 / g.damping * dt) 1 • g.moveSpeed
    ∧ (updateCamera g ms camera dt ns os mv).oldState = ns
    ∧ (updateCamera g ms camera dt ns os mv).camera.orientation
        = (postLookCamera g ms camera ns os mv).orientation :=
  ⟨by rw [updateCamera_pos_decay _ _ _ _ _ _ _ hacc, postLookCamera_pos],
   updateCamera_moveSpeed_decay _ _ _ _ _ _ _ hacc,
   updateCamera_oldState _ _ _ _ _ _ _,
   updateCamera_orientation _ _ _ _ _ _ _⟩

/-- Witness for the decay-position theorem with nonzero stored velocity. -/
theorem pure_decay_keeps_position_witness :
    accelVec allOffMovement (postLookCamera allOffMovement msUp idCamera
        msUp msUp allOffMovement).orientation = vzero
    ∧ allOffMovement.moveSpeed ≠ vzero
    ∧ (updateCamera allOffMovement msUp idCamera (1 / 10) msUp msUp
          allOffMovement).camera.pos = idCamera.pos := by
  have hacc : accelVec allOffMovement (postLookCamera allOffMovement msUp
      idCamera msUp msUp allOffMovement).orientation = vzero := by
    rw [postLookCamera_no_input _ _ _ _ _ _ rfl rfl]; exact accelVec_allOff
  refine ⟨hacc, ?_, (pure_decay_keeps_position _ _ _ _ _ _ _ hacc).1⟩
  norm_num [allOffMovement, vzero]

/-- C2 (amended): in an accelerating-branch call (nonzero accumulated
acceleration direction) and with a nonnegative cap, the resulting velocity
magnitude is at most maxSpeed (or maxSpeed * fastCoef under fast mode), the
excess being removed by rescaling the post-integration velocity to the cap
length while preserving its direction. -/
theorem accel_branch_speed_clamped (g : CameraMovement) (ms : MouseState)
    (camera : Camera) (dt : ℝ) (ns os : MouseState) (mv : CameraMovement)
    (hacc : accelVec g (postLookCamera g ms camera ns os mv).orientation ≠ vzero)
    (hcap : 0 ≤ speedCap g) :
    ((updateCamera g ms camera dt ns os mv).movement.moveSpeed).length
        ≤ speedCap g
    ∧ ((preClampSpeed g ms camera dt ns os mv).length > speedCap g →
        (updateCamera g ms camera dt ns os mv).movement.moveSpeed
            = speedCap g • (preClampSpeed g ms camera dt ns os mv).normalize
        ∧ (updateCamera g ms camera dt ns os mv).movement.moveSpeed
            = (speedCap g / (preClampSpeed g ms camera dt ns os mv).length)
                • preClampSpeed g ms camera dt ns os mv)
    ∧ (¬ (preClampSpeed g ms camera dt ns os mv).length > speedCap g →
        (updateCamera g ms camera dt ns os mv).movement.moveSpeed
          = preClampSpeed g ms camera dt ns os mv) := by
  have hmv := updateCamera_moveSpeed_accel g ms camera dt ns os mv hacc
  by_cases hl : (preClampSpeed g ms camera dt ns os mv).length > speedCap g
  · have hL0 : 0 < (preClampSpeed g ms camera dt ns os mv).length :=
      lt_of_le_of_lt hcap hl
    refine ⟨?_, fun _ => ⟨?_, ?_⟩, fun h => absurd hl h⟩
    · rw [hmv, if_pos hl, Vec3.length_normalize_smul _ _ hcap hL0]
    · rw [hmv, if_pos hl]
    · rw [hmv, if_pos hl]
      ext <;> simp [Vec3.normalize, Vec3.length] <;> ring
  · refine ⟨?_, fun h => absurd h hl, fun _ => ?_⟩
    · rw [hmv, if_neg hl]; exact not_lt.mp hl
    · rw [hmv, if_neg hl]

/-- Witness for the speed-clamp theorem at a concrete forward-key call. -/
theorem accel_branch_speed_clamped_witness :
    accelVec fwdMovement (postLookCamera fwdMovement msUp idCamera
        msUp msUp fwdMovement).orientation ≠ vzero
    ∧ (0:ℝ) ≤ speedCap fwdMovement
    ∧ ((updateCamera fwdMovement msUp idCamera 0 msUp msUp
          fwdMovement).movement.moveSpeed).length ≤ speedCap fwdMovement := by
  have hacc : accelVec fwdMovement (postLookCamera fwdMovement msUp idCamera
      msUp msUp fwdMovement).orientation ≠ vzero := by
    rw [postLookCamera_no_input _ _ _ _ _ _ rfl rfl, accelVec_fwd]
    norm_num [vzero]
  have hcap : (0:ℝ) ≤ speedCap fwdMovement := by
    norm_num [speedCap, fwdMovement, allOffMovement]
  exact ⟨hacc, hcap,
    (accel_branch_speed_clamped _ _ _ _ _ _ _ hacc hcap).1⟩

/-- Counterexample to C2 as stated: with forward and backward both held
(so a movement flag is set) the accumulated direction cancels to zero, the
decay branch runs and an out-of-cap stored velocity is left above maxSpeed. -/
theorem movement_flags_do_not_imply_clamp :
    cancelMovement.forward = true ∧ cancelMovement.fastSpeed = false
    ∧ ((updateCamera cancelMovement msUp idCamera 0 msUp msUp
          cancelMovement).movement.moveSpeed).length
        > cancelMovement.maxSpeed := by
  refine ⟨rfl, rfl, ?_⟩
  have hacc : accelVec cancelMovement (postLookCamera cancelMovement msUp
      idCamera msUp msUp cancelMovement).orientation = vzero := by
    rw [postLookCamera_no_input _ _ _ _ _ _ rfl rfl]; exact accelVec_cancel
  rw [updateCamera_moveSpeed_decay _ _ _ _ _ _ _ hacc]
  have hm : min (1 / cancelMovement.damping * 0) 1 = 0 := by
    rw [mul_zero]; exact min_eq_left zero_le_one
  have hv : cancelMovement.moveSpeed - min (1 / cancelMovement.damping * 0) 1
      • cancelMovement.moveSpeed = ⟨0, 0, -20⟩ := by
    rw [hm]
    show cancelMovement.moveSpeed - (0:ℝ) • cancelMovement.moveSpeed = _
    ext <;> simp [cancelMovement, allOffMovement]
  rw [hv, length_v20]
  norm_num [cancelMovement, allOffMovement]

/-- C4 (amended): a zero-dt call with the reset flag clear, the drag
inactive, and a velocity inside the active cap (or a zero acceleration
direction) leaves position, orientation and velocity unchanged. -/
theorem zero_dt_preserves_state (g : CameraMovement) (ms : MouseState)
    (camera : Camera) (ns os : MouseState) (mv : CameraMovement)
    (hr : g.resetUp = false) (hp : ms.pressedLeft = false)
    (hv : accelVec g camera.orientation = vzero
          ∨ g.moveSpeed.length ≤ speedCap g) :
    (updateCamera g ms camera 0 ns os mv).camera.pos = camera.pos
    ∧ (updateCamera g ms camera 0 ns os mv).camera.orientation
        = camera.orientation
    ∧ (updateCamera g ms camera 0 ns os mv).movement.moveSpeed
        = g.moveSpeed := by
  have hpl := postLookCamera_no_input g ms camera ns os mv hr hp
  have hor : (updateCamera g ms camera 0 ns os mv).camera.orientation
      = camera.orientation := by
    rw [updateCamera_orientation, hpl]
  by_cases hacc : accelVec g (postLookCamera g ms camera ns os mv).orientation
      = vzero
  · refine ⟨?_, hor, ?_⟩
    · rw [updateCamera_pos_decay _ _ _ _ _ _ _ hacc, postLookCamera_pos]
    · rw [updateCamera_moveSpeed_decay _ _ _ _ _ _ _ hacc]
      have hm : min (1 / g.damping * 0) 1 = 0 := by
        rw [mul_zero]; exact min_eq_left zero_le_one
      rw [hm]; ext <;> simp
  · have hle : g.moveSpeed.length ≤ speedCap g := by
      rcases hv with h | h
      · exact absurd (by rw [hpl]; exact h) hacc
      · exact h
    have hsp : preClampSpeed g ms camera 0 ns os mv = g.moveSpeed := by
      unfold preClampSpeed; ext <;> simp
    have hnc : ¬ (preClampSpeed g ms camera 0 ns os mv).length > speedCap g := by
      rw [hsp]; exact not_lt.mpr hle
    refine ⟨?_, hor, ?_⟩
    · rw [updateCamera_pos_accel _ _ _ _ _ _ _ hacc, if_neg hnc,
          postLookCamera_pos]
      ext <;> simp
    · rw [updateCamera_moveSpeed_accel _ _ _ _ _ _ _ hacc, if_neg hnc, hsp]

/-- Witness for the zero-dt theorem at a concrete no-input call. -/
theorem zero_dt_preserves_state_witness :
    allOffMovement.resetUp = false ∧ msUp.pressedLeft = false
    ∧ accelVec allOffMovement idCamera.orientation = vzero
    ∧ (updateCamera allOffMovement msUp idCamera 0 msUp msUp
          allOffMovement).movement.moveSpeed = allOffMovement.moveSpeed :=
  ⟨rfl, rfl, accelVec_allOff,
   (zero_dt_preserves_state _ _ _ _ _ _ rfl rfl (Or.inl accelVec_allOff)).2.2⟩

/-- Counterexample to C4 as stated: at dt = 0 with forward held and a
stored velocity of magnitude 20 above the cap 10, the call rescales the
velocity, so the state is not untouched. -/
theorem zero_dt_not_always_noop :
    (updateCamera fwdMovement msUp idCamera 0 msUp msUp
        fwdMovement).movement.moveSpeed ≠ fwdMovement.moveSpeed := by
  have hacc : accelVec fwdMovement (postLookCamera fwdMovement msUp idCamera
      msUp msUp fwdMovement).orientation ≠ vzero := by
    rw [postLookCamera_no_input _ _ _ _ _ _ rfl rfl, accelVec_fwd]
    norm_num [vzero]
  rw [updateCamera_moveSpeed_accel _ _ _ _ _ _ _ hacc]
  have hsp : preClampSpeed fwdMovement msUp idCamera 0 msUp msUp fwdMovement
      = ⟨0, 0, -20⟩ := by
    unfold preClampSpeed
    rw [postLookCamera_no_input _ _ _ _ _ _ rfl rfl, accelVec_fwd]
    ext <;> simp [fwdMovement, allOffMovement]
  have hcap : speedCap fwdMovement = 10 := by
    simp [speedCap, fwdMovement, allOffMovement]
  have hn : (⟨(0:ℝ), 0, -20⟩ : Vec3).normalize = ⟨0, 0, -1⟩ := by
    unfold Vec3.normalize
    rw [show Real.sqrt (Vec3.dot ⟨0, 0, -20⟩ ⟨0, 0, -20⟩)
          = (⟨(0:ℝ), 0, -20⟩ : Vec3).length from rfl, length_v20]
    ext <;> norm_num
  rw [hsp, hcap, length_v20, if_pos (by norm_num : (20:ℝ) > 10), hn]
  intro h
  have hz := congrArg Vec3.z h
  simp [fwdMovement, allOffMovement] at hz

/-- C6: while the drag is active, the new orientation is the renormalized
left product of the small-angle quaternion built from the pointer delta
(pitch from the vertical delta, yaw from the horizontal delta, no roll)
with the current orientation. -/
theorem drag_look_formula (g : CameraMovement) (ms : MouseState)
    (camera : Camera) (dt : ℝ) (ns os : MouseState) (mv : CameraMovement)
    (hp : ms.pressedLeft = true) :
    (updateCamera g ms camera dt ns os mv).camera.orientation
      = qNormalize
          (quatFromEuler
              ⟨mv.lookSpeed * (ns.pos.y - os.pos.y),
               mv.lookSpeed * (ns.pos.x - os.pos.x), 0⟩ *
            (resetStep g camera).orientation) := by
  rw [updateCamera_orientation]
  unfold postLookCamera lookStep
  rw [hp]
  simp

/-- Witness for the drag formula at a concrete dragging call. -/
theorem drag_look_formula_witness :
    msDown.pressedLeft = true
    ∧ (updateCamera allOffMovement msDown idCamera 1 msDown msUp
          allOffMovement).camera.orientation
        = qNormalize
            (quatFromEuler
                ⟨allOffMovement.lookSpeed * (msDown.pos.y - msUp.pos.y),
                 allOffMovement.lookSpeed * (msDown.pos.x - msUp.pos.x), 0⟩ *
              (resetStep allOffMovement idCamera).orientation) :=
  ⟨rfl, drag_look_formula _ _ _ _ _ _ _ rfl⟩

/-- C8: after every update call the stored previous pointer position is the
pointer position supplied to that call, whatever the drag state. -/
theorem prev_pointer_tracks_current (g : CameraMovement) (ms : MouseState)
    (camera : Camera) (dt : ℝ) (ns os : MouseState) (mv : CameraMovement) :
    (updateCamera g ms camera dt ns os mv).oldState.pos = ns.pos := by
  rw [updateCamera_oldState]

/-- C10 (amended): two calls agreeing on the globals, the camera, dt, the
old state, the new pointer position and the parameter lookSpeed produce the
same pose, the same movement state (velocity included) and the same stored
previous pointer position, whatever the remaining parameter flags. -/
theorem param_flags_irrelevant (g : CameraMovement) (ms : MouseState)
    (camera : Camera) (dt : ℝ) (ns₁ ns₂ os : MouseState)
    (mv₁ mv₂ : CameraMovement)
    (hpos : ns₁.pos = ns₂.pos) (hls : mv₁.lookSpeed = mv₂.lookSpeed) :
    (updateCamera g ms camera dt ns₁ os mv₁).camera
        = (updateCamera g ms camera dt ns₂ os mv₂).camera
    ∧ (updateCamera g ms camera dt ns₁ os mv₁).movement
        = (updateCamera g ms camera dt ns₂ os mv₂).movement
    ∧ (updateCamera g ms camera dt ns₁ os mv₁).oldState.pos
        = (updateCamera g ms camera dt ns₂ os mv₂).oldState.pos := by
  have hpl : postLookCamera g ms camera ns₁ os mv₁
      = postLookCamera g ms camera ns₂ os mv₂ := by
    unfold postLookCamera lookStep
    rw [hpos, hls]
  have hpre : preClampSpeed g ms camera dt ns₁ os mv₁
      = preClampSpeed g ms camera dt ns₂ os mv₂ := by
    unfold preClampSpeed
    rw [hpl]
  refine ⟨?_, ?_, ?_⟩
  · rw [updateCamera_camera, updateCamera_camera, hpl, hpre]
  · rw [updateCamera_movement, updateCamera_movement, hpl, hpre]
  · rw [updateCamera_oldState, updateCamera_oldState, hpos]

/-- Witness for the parameter-irrelevance theorem at two concrete calls
that differ in the pressedLeft field of the new-state parameter. -/
theorem param_flags_irrelevant_witness :
    msDown.pos = msUp.pos ∧ allOffMovement.lookSpeed = fwdMovement.lookSpeed
    ∧ (updateCamera allOffMovement msUp idCamera 1 msDown msUp
          allOffMovement).camera
        = (updateCamera allOffMovement msUp idCamera 1 msUp msUp
            fwdMovement).camera :=
  ⟨rfl, rfl,
   (param_flags_irrelevant allOffMovement msUp idCamera 1 msDown msUp msUp
      allOffMovement fwdMovement rfl rfl).1⟩

/-- With the button up, the look step leaves the camera untouched. -/
lemma lookStep_no_drag (ms : MouseState) (mv : CameraMovement)
    (ns os : MouseState) (camera : Camera) (hp : ms.pressedLeft = false) :
    lookStep ms mv ns os camera = camera := by
  unfold lookStep
  rw [hp]
  simp

/-- With the reset flag held, the reset step runs setUpVector toward the
world up (0, 1, 0). -/
lemma resetStep_on (g : CameraMovement) (camera : Camera)
    (hr : g.resetUp = true) :
    resetStep g camera = setUpVector camera ⟨0, 1, 0⟩ := by
  unfold resetStep
  rw [hr]
  simp

/-- Concrete fixture: camera rolled by 180 degrees about the view axis. -/
noncomputable def rollCamera : Camera := ⟨⟨0, 0, 0⟩, ⟨0, 0, 0, 1⟩⟩

/-- Concrete fixture: simulation state holding the rolled camera. -/
noncomputable def rollState : SimState := ⟨rollCamera, msUp, ⟨0, 0, 0⟩⟩

/-- Concrete fixture: no flags except resetUp. -/
noncomputable def resetMovement : CameraMovement :=
  { allOffMovement with resetUp := true }

/-- Concrete fixture: one frame holding only the resetUp key. -/
noncomputable def resetTick : TickInput := ⟨resetMovement, msUp, 1⟩

/-- Concrete fixture: one frame with no input at all. -/
noncomputable def idleTick : TickInput := ⟨allOffMovement, msUp, 1⟩

/-- Concrete fixture: simulation state with the identity camera and a
nonzero stored velocity. -/
noncomputable def idleState : SimState := ⟨idCamera, msUp, ⟨5, 0, 0⟩⟩

lemma quat_cast3_identityMat :
    quat_cast3 ⟨1, 0, 0, 0, 1, 0, 0, 0, 1⟩ = ⟨1, 0, 0, 0⟩ := by
  unfold quat_cast3
  norm_num
  rw [show (4:ℝ) = 2 ^ 2 by norm_num, Real.sqrt_sq (by norm_num)]
  norm_num

lemma setUpVector_roll :
    (setUpVector rollCamera ⟨0, 1, 0⟩).orientation = ⟨1, 0, 0, 0⟩ := by
  have h02 : (getViewMatrix rollCamera).m02 = 0 := by
    norm_num [getViewMatrix, mat4mul, mat4_cast, mat3_cast, translate, rollCamera]
  have h12 : (getViewMatrix rollCamera).m12 = 0 := by
    norm_num [getViewMatrix, mat4mul, mat4_cast, mat3_cast, translate, rollCamera]
  have h22 : (getViewMatrix rollCamera).m22 = 1 := by
    norm_num [getViewMatrix, mat4mul, mat4_cast, mat3_cast, translate, rollCamera]
  have hdirv : (⟨-(getViewMatrix rollCamera).m02, -(getViewMatrix rollCamera).m12,
      -(getViewMatrix rollCamera).m22⟩ : Vec3) = ⟨0, 0, -1⟩ := by
    rw [h02, h12, h22]
    ext <;> norm_num
  simp only [setUpVector]
  rw [hdirv]
  have hpos : rollCamera.pos = ⟨0, 0, 0⟩ := rfl
  rw [hpos]
  have hcenter : (⟨0, 0, 0⟩ : Vec3) + ⟨0, 0, -1⟩ = ⟨0, 0, -1⟩ := by
    ext <;> norm_num
  rw [hcenter]
  have hsub : (⟨0, 0, -1⟩ : Vec3) - ⟨0, 0, 0⟩ = ⟨0, 0, -1⟩ := by
    ext <;> norm_num
  have hnf : Vec3.normalize ⟨0, 0, -1⟩ = ⟨0, 0, -1⟩ := by
    unfold Vec3.normalize Vec3.dot
    norm_num
  have hc1 : Vec3.cross ⟨0, 0, -1⟩ ⟨0, 1, 0⟩ = ⟨1, 0, 0⟩ := by
    unfold Vec3.cross
    ext <;> norm_num
  have hn1 : Vec3.normalize ⟨1, 0, 0⟩ = ⟨1, 0, 0⟩ := by
    unfold Vec3.normalize Vec3.dot
    norm_num
  have hc2 : Vec3.cross ⟨1, 0, 0⟩ ⟨0, 0, -1⟩ = ⟨0, 1, 0⟩ := by
    unfold Vec3.cross
    ext <;> norm_num
  have hLA : upper3 (lookAt ⟨0, 0, 0⟩ ⟨0, 0, -1⟩ ⟨0, 1, 0⟩)
      = ⟨1, 0, 0, 0, 1, 0, 0, 0, 1⟩ := by
    simp only [lookAt, upper3]
    rw [hsub, hnf, hc1, hn1, hc2]
    ext <;> norm_num
  show quat_cast4 (lookAt ⟨0, 0, 0⟩ ⟨0, 0, -1⟩ ⟨0, 1, 0⟩) = _
  unfold quat_cast4
  rw [hLA]
  exact quat_cast3_identityMat

/-- C7 (amended): if the drag flag is false and the reset flag is clear for
an entire sequence of frames, the orientation never changes, whatever the
pointer positions supplied. -/
theorem no_drag_no_reset_orientation_constant (s : SimState)
    (l : List TickInput)
    (h : ∀ i ∈ l, i.ms.pressedLeft = false ∧ i.g.resetUp = false) :
    (List.foldl tick s l).camera.orientation = s.camera.orientation := by
  induction l generalizing s with
  | nil => rfl
  | cons i is ih =>
      have hi := h i (List.mem_cons_self i is)
      have hstep : (tick s i).camera.orientation = s.camera.orientation := by
        have hr : ({ i.g with moveSpeed := s.moveSpeed }
            : CameraMovement).resetUp = false := hi.2
        unfold tick
        rw [updateCamera_orientation,
            postLookCamera_no_input _ _ _ _ _ _ hr hi.1]
      rw [List.foldl_cons,
          ih (tick s i) fun j hj => h j (List.mem_cons_of_mem i hj), hstep]

/-- Witness for the no-drag no-reset theorem on a concrete one-frame run. -/
theorem no_drag_no_reset_witness :
    (∀ i ∈ [idleTick], i.ms.pressedLeft = false ∧ i.g.resetUp = false)
    ∧ (List.foldl tick idleState [idleTick]).camera.orientation
        = idleState.camera.orientation := by
  have h : ∀ i ∈ [idleTick], i.ms.pressedLeft = false ∧ i.g.resetUp = false := by
    intro i hi
    rw [List.mem_singleton] at hi
    subst hi
    exact ⟨rfl, rfl⟩
  exact ⟨h, no_drag_no_reset_orientation_constant idleState [idleTick] h⟩

/-- Counterexample to C7 as stated: with the drag flag false for the whole
sequence but the resetUp flag held, one frame changes the orientation of a
rolled camera. -/
theorem no_drag_reset_changes_orientation :
    (∀ i ∈ [resetTick], i.ms.pressedLeft = false)
    ∧ (List.foldl tick rollState [resetTick]).camera.orientation
        ≠ rollState.camera.orientation := by
  refine ⟨?_, ?_⟩
  · intro i hi
    rw [List.mem_singleton] at hi
    subst hi
    rfl
  · have h1 : (List.foldl tick rollState [resetTick]).camera.orientation
        = ⟨1, 0, 0, 0⟩ := by
      show (tick rollState resetTick).camera.orientation = _
      unfold tick
      rw [updateCamera_orientation]
      unfold postLookCamera
      rw [lookStep_no_drag _ _ _ _ _ rfl, resetStep_on _ _ rfl]
      exact setUpVector_roll
    rw [h1]
    intro h
    have hw := congrArg Quat.w h
    simp [rollState, rollCamera] at hw

/-- Counterexample to C10 as stated: the previous-pointer state is not
identical across the two calls, because the unconditional copy stores the
whole new state, pressedLeft field included. -/
theorem prev_pointer_state_copies_flag :
    msDown.pos = msUp.pos
    ∧ (updateCamera allOffMovement msUp idCamera 1 msDown msUp
          allOffMovement).oldState
        ≠ (updateCamera allOffMovement msUp idCamera 1 msUp msUp
            allOffMovement).oldState := by
  refine ⟨rfl, ?_⟩
  rw [updateCamera_oldState, updateCamera_oldState]
  intro h
  have hb := congrArg MouseState.pressedLeft h
  simp [msDown, msUp] at hb

set_option maxHeartbeats 1000000 in
/-- quat_cast applied to the rotation part of a lookAt matrix with world up
(0, 1, 0): writing the matrix in terms of the unit right vector (sx, 0, sz),
the forward height fy and the horizontal norm n, the resulting quaternion is
unit and encodes the same forward direction (sz*n, fy, -(sx*n)).  All four
branches of the biggest-component scan are covered. -/
lemma quat_cast3_lookAtMat (sx sz fy n : ℝ)
    (hA : sx ^ 2 + sz ^ 2 = 1) (hB : fy ^ 2 = 1 - n ^ 2) (hn : 0 < n) :
    Quat.normSq (quat_cast3 ⟨sx, -(fy*sz), -(sz*n), 0, n, -fy, sz, fy*sx, sx*n⟩) = 1
    ∧ dirOfQuat (quat_cast3 ⟨sx, -(fy*sz), -(sz*n), 0, n, -fy, sz, fy*sx, sx*n⟩)
        = ⟨sz*n, fy, -(sx*n)⟩ := by
  have hA2 : sz ^ 2 = 1 - sx ^ 2 := by linarith
  simp only [quat_cast3]
  split_ifs with h3 h2 h1
  · -- branch Z
    have hW : sx + n + sx * n ≤ (sx + n + sx * n) ⊔ (sx - n - sx * n) ⊔ (n - sx - sx * n) :=
      le_trans (le_max_left _ _) (le_max_left _ _)
    have hX : sx - n - sx * n ≤ (sx + n + sx * n) ⊔ (sx - n - sx * n) ⊔ (n - sx - sx * n) :=
      le_trans (le_max_right _ _) (le_max_left _ _)
    have hY : n - sx - sx * n ≤ (sx + n + sx * n) ⊔ (sx - n - sx * n) ⊔ (n - sx - sx * n) :=
      le_max_right _ _
    have hZ0 : 0 ≤ sx * n - sx - n := by linarith
    set S := Real.sqrt (sx * n - sx - n + 1) with hSdef
    have hS2 : S ^ 2 = (1 - sx) * (1 - n) := by
      rw [hSdef, Real.sq_sqrt (by linarith)]
      ring
    have hS0 : (0:ℝ) < S := Real.sqrt_pos.mpr (by linarith)
    constructor
    · unfold Quat.normSq
      field_simp
      linear_combination (16*sx*n + (-16)*sx + (-16)*n + 16*S^2 + (-48)) * hS2 + (16*sx^2 + (-32)*sx + 16*sz^2 + 16) * hB + ((-32)*n + 32) * hA2
    · unfold dirOfQuat mat3_cast
      simp only [Vec3.mk.injEq]
      refine ⟨?_, ?_, ?_⟩
      · field_simp
        linear_combination ((-64)*sz*n*S + (-64)*sz*S) * hS2 + ((-64)*sx*sz*S + 64*sz*S) * hB + (0) * hA2
      · field_simp
        linear_combination ((-64)*sx*fy*S + (-64)*fy*S) * hS2 + (0) * hB + ((-64)*fy*n*S + 64*fy*S) * hA2
      · field_simp
        linear_combination (16*sx*n + (-16)) * hS2 + (8*sx^2 + (-16)*sx + 8) * hB + (8*n^2 + (-16)*n + 8) * hA2
  · -- branch Y
    have hW : sx + n + sx * n ≤ (sx + n + sx * n) ⊔ (sx - n - sx * n) := le_max_left _ _
    have hX : sx - n - sx * n ≤ (sx + n + sx * n) ⊔ (sx - n - sx * n) := le_max_right _ _
    have hZY : sx * n - sx - n ≤ n - sx - sx * n := by
      have := not_lt.mp h3
      rwa [max_eq_right (le_of_lt h2)] at this
    have hY0 : 0 ≤ n - sx - sx * n := by linarith
    set S := Real.sqrt (n - sx - sx * n + 1) with hSdef
    have hS2 : S ^ 2 = (1 - sx) * (1 + n) := by
      rw [hSdef, Real.sq_sqrt (by linarith)]
      ring
    have hS0 : (0:ℝ) < S := Real.sqrt_pos.mpr (by linarith)
    constructor
    · unfold Quat.normSq
      field_simp
      linear_combination (256*sx^2*fy^2 + 256*sx^2*n^2 + 512*sx^2*n + 256*sx^2 + (-512)*sx*fy^2 + (-512)*sx*n^2 + (-256)*sx*n*S^2 + (-256)*sx*S^2 + 512*sx + 256*sz^2*fy^2 + 256*sz^2*n^2 + 512*sz^2*n + 256*sz^2 + 256*fy^2 + 256*n^2 + 256*n*S^2 + (-512)*n + 256*S^4 + (-768)*S^2 + (-768)) * hS2 + ((-256)*sx^3*n + (-256)*sx^3 + 768*sx^2*n + 768*sx^2 + (-256)*sx*sz^2*n + (-256)*sx*sz^2 + (-768)*sx*n + (-768)*sx + 256*sz^2*n + 256*sz^2 + 256*n + 256) * hB + ((-512)*sx*n^2 + (-1024)*sx*n + (-512)*sx + 512*n^2 + 1024*n + 512) * hA2
    · unfold dirOfQuat mat3_cast
      simp only [Vec3.mk.injEq]
      refine ⟨?_, ?_, ?_⟩
      · field_simp
        linear_combination ((-64)*sz*n*S + 64*sz*S) * hS2 + (64*sx*sz*S + (-64)*sz*S) * hB + (0) * hA2
      · field_simp
        linear_combination ((-64)*sx*fy*S + (-64)*fy*S) * hS2 + (0) * hB + (64*fy*n*S + 64*fy*S) * hA2
      · field_simp
        linear_combination (32*sx*n + (-32)*sx + 32*n + 32*S^2 + (-32)) * hS2 + (32*sz^2) * hB + ((-32)*n^2 + 32) * hA2
  · -- branch X
    have hmaxX : (sx + n + sx * n) ⊔ (sx - n - sx * n) = sx - n - sx * n :=
      max_eq_right (le_of_lt h1)
    have hYX : n - sx - sx * n ≤ sx - n - sx * n := by
      have := not_lt.mp h2
      rwa [hmaxX] at this
    have hZX : sx * n - sx - n ≤ sx - n - sx * n := by
      have := not_lt.mp h3
      rwa [hmaxX, max_eq_left hYX] at this
    have hX0 : 0 ≤ sx - n - sx * n := by linarith
    set S := Real.sqrt (sx - n - sx * n + 1) with hSdef
    have hS2 : S ^ 2 = (1 + sx) * (1 - n) := by
      rw [hSdef, Real.sq_sqrt (by linarith)]
      ring
    have hS0 : (0:ℝ) < S := Real.sqrt_pos.mpr (by linarith)
    constructor
    · unfold Quat.normSq
      field_simp
      linear_combination ((-4096)*sx^3*fy^2*n + 4096*sx^3*fy^2 + (-4096)*sx^3*n^3 + 12288*sx^3*n^2 + (-12288)*sx^3*n + 4096*sx^3 + (-12288)*sx^2*fy^2*n + 4096*sx^2*fy^2*S^2 + 12288*sx^2*fy^2 + (-12288)*sx^2*n^3 + 4096*sx^2*n^2*S^2 + 20480*sx^2*n^2 + (-8192)*sx^2*n*S^2 + (-4096)*sx^2*n + 4096*sx^2*S^2 + (-4096)*sx^2 + (-4096)*sx*sz^2*fy^2*n + 4096*sx*sz^2*fy^2 + (-4096)*sx*sz^2*n^3 + 12288*sx*sz^2*n^2 + (-12288)*sx*sz^2*n + 4096*sx*sz^2 + (-12288)*sx*fy^2*n + 8192*sx*fy^2*S^2 + 12288*sx*fy^2 + (-12288)*sx*n^3 + 8192*sx*n^2*S^2 + 4096*sx*n^2 + (-4096)*sx*n*S^4 + 28672*sx*n + 4096*sx*S^4 + (-8192)*sx*S^2 + (-20480)*sx + (-4096)*sz^2*fy^2*n + 4096*sz^2*fy^2*S^2 + 4096*sz^2*fy^2 + (-4096)*sz^2*n^3 + 4096*sz^2*n^2*S^2 + 12288*sz^2*n^2 + (-8192)*sz^2*n*S^2 + (-12288)*sz^2*n + 4096*sz^2*S^2 + 4096*sz^2 + (-4096)*fy^2*n + 4096*fy^2*S^2 + 4096*fy^2 + (-4096)*n^3 + 4096*n^2*S^2 + (-4096)*n^2 + (-4096)*n*S^4 + 8192*n*S^2 + 20480*n + 4096*S^6 + (-12288)*S^4 + (-12288)*S^2 + (-12288)) * hS2 + (4096*sx^4*n^2 + (-8192)*sx^4*n + 4096*sx^4 + 16384*sx^3*n^2 + (-32768)*sx^3*n + 16384*sx^3 + 4096*sx^2*sz^2*n^2 + (-8192)*sx^2*sz^2*n + 4096*sx^2*sz^2 + 24576*sx^2*n^2 + (-49152)*sx^2*n + 24576*sx^2 + 8192*sx*sz^2*n^2 + (-16384)*sx*sz^2*n + 8192*sx*sz^2 + 16384*sx*n^2 + (-32768)*sx*n + 16384*sx + 4096*sz^2*n^2 + (-8192)*sz^2*n + 4096*sz^2 + 4096*n^2 + (-8192)*n + 4096) * hB + ((-8192)*sx^2*n^3 + 24576*sx^2*n^2 + (-24576)*sx^2*n + 8192*sx^2 + (-16384)*sx*n^3 + 49152*sx*n^2 + (-49152)*sx*n + 16384*sx + (-8192)*n^3 + 24576*n^2 + (-24576)*n + 8192) * hA2
    · unfold dirOfQuat mat3_cast
      simp only [Vec3.mk.injEq]
      refine ⟨?_, ?_, ?_⟩
      · field_simp
        linear_combination ((-64)*sz*n*S + (-64)*sz*S) * hS2 + (64*sx*sz*S + 64*sz*S) * hB + (0) * hA2
      · field_simp
        linear_combination (64*sx*fy*S + (-64)*fy*S) * hS2 + (0) * hB + ((-64)*fy*n*S + 64*fy*S) * hA2
      · field_simp
        linear_combination (32*sx*n + 32*sx + (-32)*n + 32*S^2 + (-32)) * hS2 + (32*sz^2) * hB + ((-32)*n^2 + 32) * hA2
  · -- branch W
    have hXW : sx - n - sx * n ≤ sx + n + sx * n := not_lt.mp h1
    have hmax1 : max (sx + n + sx * n) (sx - n - sx * n) = sx + n + sx * n :=
      max_eq_left hXW
    have hYW : n - sx - sx * n ≤ sx + n + sx * n := by
      have := not_lt.mp h2
      rwa [hmax1] at this
    have hZW : sx * n - sx - n ≤ sx + n + sx * n := by
      have := not_lt.mp h3
      rwa [hmax1, max_eq_left hYW] at this
    have hW0 : 0 ≤ sx + n + sx * n := by linarith
    set S := Real.sqrt (sx + n + sx * n + 1) with hSdef
    have hS2 : S ^ 2 = (1 + sx) * (1 + n) := by
      rw [hSdef, Real.sq_sqrt (by linarith)]
      ring
    have hS0 : (0:ℝ) < S := Real.sqrt_pos.mpr (by linarith)
    constructor
    · unfold Quat.normSq
      field_simp
      linear_combination (4096*sx^3*fy^2*n + 4096*sx^3*fy^2 + 4096*sx^3*n^3 + 12288*sx^3*n^2 + 12288*sx^3*n + 4096*sx^3 + 12288*sx^2*fy^2*n + 4096*sx^2*fy^2*S^2 + 12288*sx^2*fy^2 + 12288*sx^2*n^3 + 4096*sx^2*n^2*S^2 + 20480*sx^2*n^2 + 8192*sx^2*n*S^2 + 4096*sx^2*n + 4096*sx^2*S^2 + (-4096)*sx^2 + 4096*sx*sz^2*fy^2*n + 4096*sx*sz^2*fy^2 + 4096*sx*sz^2*n^3 + 12288*sx*sz^2*n^2 + 12288*sx*sz^2*n + 4096*sx*sz^2 + 12288*sx*fy^2*n + 8192*sx*fy^2*S^2 + 12288*sx*fy^2 + 12288*sx*n^3 + 8192*sx*n^2*S^2 + 4096*sx*n^2 + 4096*sx*n*S^4 + (-28672)*sx*n + 4096*sx*S^4 + (-8192)*sx*S^2 + (-20480)*sx + 4096*sz^2*fy^2*n + 4096*sz^2*fy^2*S^2 + 4096*sz^2*fy^2 + 4096*sz^2*n^3 + 4096*sz^2*n^2*S^2 + 12288*sz^2*n^2 + 8192*sz^2*n*S^2 + 12288*sz^2*n + 4096*sz^2*S^2 + 4096*sz^2 + 4096*fy^2*n + 4096*fy^2*S^2 + 4096*fy^2 + 4096*n^3 + 4096*n^2*S^2 + (-4096)*n^2 + 4096*n*S^4 + (-8192)*n*S^2 + (-20480)*n + 4096*S^6 + (-12288)*S^4 + (-12288)*S^2 + (-12288)) * hS2 + (4096*sx^4*n^2 + 8192*sx^4*n + 4096*sx^4 + 16384*sx^3*n^2 + 32768*sx^3*n + 16384*sx^3 + 4096*sx^2*sz^2*n^2 + 8192*sx^2*sz^2*n + 4096*sx^2*sz^2 + 24576*sx^2*n^2 + 49152*sx^2*n + 24576*sx^2 + 8192*sx*sz^2*n^2 + 16384*sx*sz^2*n + 8192*sx*sz^2 + 16384*sx*n^2 + 32768*sx*n + 16384*sx + 4096*sz^2*n^2 + 8192*sz^2*n + 4096*sz^2 + 4096*n^2 + 8192*n + 4096) * hB + (8192*sx^2*n^3 + 24576*sx^2*n^2 + 24576*sx^2*n + 8192*sx^2 + 16384*sx*n^3 + 49152*sx*n^2 + 49152*sx*n + 16384*sx + 8192*n^3 + 24576*n^2 + 24576*n + 8192) * hA2
    · unfold dirOfQuat mat3_cast
      simp only [Vec3.mk.injEq]
      refine ⟨?_, ?_, ?_⟩
      · field_simp
        linear_combination ((-64)*sz*n*S + 64*sz*S) * hS2 + ((-64)*sx*sz*S + (-64)*sz*S) * hB + (0) * hA2
      · field_simp
        linear_combination (64*sx*fy*S + (-64)*fy*S) * hS2 + (0) * hB + (64*fy*n*S + 64*fy*S) * hA2
      · field_simp
        linear_combination (16*sx*n + (-16)) * hS2 + (8*sx^2 + 16*sx + 8) * hB + (8*n^2 + 16*n + 8) * hA2

/-- The rotation part of a lookAt matrix toward eye + (fx, fy, fz) with
world up (0, 1, 0), written with the horizontal norm n = sqrt(fx^2 + fz^2). -/
lemma upper3_lookAt (eye : Vec3) (fx fy fz n : ℝ)
    (hf : fx ^ 2 + fy ^ 2 + fz ^ 2 = 1) (hn2 : n ^ 2 = fx ^ 2 + fz ^ 2)
    (hn0 : 0 < n) (hs : Real.sqrt (fx ^ 2 + fz ^ 2) = n) :
    upper3 (lookAt eye (eye + ⟨fx, fy, fz⟩) ⟨0, 1, 0⟩)
      = ⟨-fz / n, -(fy * (fx / n)), -((fx / n) * n),
         0, n, -fy,
         fx / n, fy * (-fz / n), (-fz / n) * n⟩ := by
  have hsub : (eye + ⟨fx, fy, fz⟩) - eye = ⟨fx, fy, fz⟩ := by ext <;> simp
  have hdotf : Vec3.dot ⟨fx, fy, fz⟩ ⟨fx, fy, fz⟩ = 1 := by
    unfold Vec3.dot
    linear_combination hf
  have hnf : Vec3.normalize ⟨fx, fy, fz⟩ = ⟨fx, fy, fz⟩ := by
    unfold Vec3.normalize
    rw [hdotf, Real.sqrt_one]
    ext <;> simp
  have hcr : Vec3.cross ⟨fx, fy, fz⟩ ⟨0, 1, 0⟩ = ⟨-fz, 0, fx⟩ := by
    unfold Vec3.cross
    ext <;> ring
  have hdotc : Vec3.dot ⟨-fz, 0, fx⟩ ⟨-fz, 0, fx⟩ = fx ^ 2 + fz ^ 2 := by
    unfold Vec3.dot
    ring
  have hns : Vec3.normalize ⟨-fz, 0, fx⟩ = ⟨-fz / n, 0, fx / n⟩ := by
    unfold Vec3.normalize
    rw [hdotc, hs]
    ext <;> simp <;> ring
  have hu : Vec3.cross ⟨-fz / n, 0, fx / n⟩ ⟨fx, fy, fz⟩
      = ⟨-(fy * (fx / n)), n, fy * (-fz / n)⟩ := by
    unfold Vec3.cross
    ext
    · ring
    · show fx / n * fx - -fz / n * fz = n
      field_simp
      linear_combination -hn2
    · ring
  have hne : n ≠ 0 := ne_of_gt hn0
  simp only [lookAt, upper3]
  rw [hsub, hnf, hcr, hns, hu]
  ext <;> field_simp

/-- Core property of setUpVector: applied to a unit forward direction with a
nonzero horizontal part, quat_cast of the lookAt matrix is a unit quaternion
encoding the same forward direction, for any eye position. -/
lemma setUpVector_core (eye : Vec3) (fx fy fz : ℝ)
    (hf : fx ^ 2 + fy ^ 2 + fz ^ 2 = 1) (hpos : 0 < fx ^ 2 + fz ^ 2) :
    Quat.normSq (quat_cast4 (lookAt eye (eye + ⟨fx, fy, fz⟩) ⟨0, 1, 0⟩)) = 1
    ∧ dirOfQuat (quat_cast4 (lookAt eye (eye + ⟨fx, fy, fz⟩) ⟨0, 1, 0⟩))
        = ⟨fx, fy, fz⟩ := by
  set n := Real.sqrt (fx ^ 2 + fz ^ 2) with hndef
  have hn2 : n ^ 2 = fx ^ 2 + fz ^ 2 := Real.sq_sqrt (le_of_lt hpos)
  have hn0 : 0 < n := Real.sqrt_pos.mpr hpos
  have hA : (-fz / n) ^ 2 + (fx / n) ^ 2 = 1 := by
    field_simp
    linear_combination -hn2
  have hB : fy ^ 2 = 1 - n ^ 2 := by
    rw [hn2]
    linarith
  have hmain := quat_cast3_lookAtMat (-fz / n) (fx / n) fy n hA hB hn0
  unfold quat_cast4
  rw [upper3_lookAt eye fx fy fz n hf hn2 hn0 hndef.symm]
  refine ⟨hmain.1, ?_⟩
  rw [hmain.2]
  ext
  · show fx / n * n = fx
    field_simp
  · rfl
  · show -(-fz / n * n) = fz
    field_simp

/-- The direction extracted from the view matrix in setUpVector equals the
direction encoded by the orientation: the translation part contributes
nothing to the rotation entries. -/
lemma viewDir_eq (camera : Camera) :
    (⟨-(getViewMatrix camera).m02, -(getViewMatrix camera).m12,
      -(getViewMatrix camera).m22⟩ : Vec3) = dirOfQuat camera.orientation := by
  unfold getViewMatrix mat4mul mat4_cast translate dirOfQuat
  ext <;> simp <;> ring

/-- setUpVector keeps the position and rebuilds the orientation from the
lookAt matrix toward the currently encoded direction. -/
lemma setUpVector_eq (camera : Camera) :
    setUpVector camera ⟨0, 1, 0⟩
      = ⟨camera.pos, quat_cast4 (lookAt camera.pos
          (camera.pos + dirOfQuat camera.orientation) ⟨0, 1, 0⟩)⟩ := by
  simp only [setUpVector]
  rw [viewDir_eq]

/-- The direction encoded by a unit quaternion is a unit vector. -/
lemma dirOfQuat_unit (q : Quat) (hq : Quat.normSq q = 1) :
    (dirOfQuat q).x ^ 2 + (dirOfQuat q).y ^ 2 + (dirOfQuat q).z ^ 2 = 1 := by
  unfold dirOfQuat mat3_cast Quat.normSq at *
  linear_combination (4 * q.x ^ 2 + 4 * q.y ^ 2) * hq

/-- setUpVector on a unit orientation with a nondegenerate horizontal
direction yields a unit orientation encoding the same direction. -/
lemma setUpVector_unit_dir (camera : Camera)
    (hq : Quat.normSq camera.orientation = 1)
    (hd : 0 < (dirOfQuat camera.orientation).x ^ 2
      + (dirOfQuat camera.orientation).z ^ 2) :
    Quat.normSq (setUpVector camera ⟨0, 1, 0⟩).orientation = 1
    ∧ dirOfQuat (setUpVector camera ⟨0, 1, 0⟩).orientation
        = dirOfQuat camera.orientation := by
  have hfd := dirOfQuat_unit _ hq
  have hcore := setUpVector_core camera.pos (dirOfQuat camera.orientation).x
      (dirOfQuat camera.orientation).y (dirOfQuat camera.orientation).z hfd hd
  have heta : (⟨(dirOfQuat camera.orientation).x, (dirOfQuat camera.orientation).y,
      (dirOfQuat camera.orientation).z⟩ : Vec3) = dirOfQuat camera.orientation := rfl
  rw [heta] at hcore
  rw [setUpVector_eq]
  exact hcore

lemma Quat.normSq_nonneg (q : Quat) : 0 ≤ q.normSq := by
  unfold Quat.normSq
  nlinarith [mul_self_nonneg q.w, mul_self_nonneg q.x, mul_self_nonneg q.y,
    mul_self_nonneg q.z]

/-- glm normalize always returns a unit quaternion over the reals: the
nonpositive-length guard returns the identity, and otherwise the division
by the length is exact. -/
lemma qNormalize_normSq (q : Quat) : Quat.normSq (qNormalize q) = 1 := by
  unfold qNormalize
  split_ifs with h
  · unfold Quat.normSq
    norm_num
  · push_neg at h
    have hlen2 : q.length ^ 2 = q.normSq := Real.sq_sqrt (Quat.normSq_nonneg q)
    have hne : q.length ≠ 0 := ne_of_gt h
    unfold Quat.normSq at hlen2 ⊢
    field_simp
    linear_combination -hlen2

/-- Side condition for a run of frames: whenever a frame holds the resetUp
key, the camera direction at that moment is not vertical (its cross product
with the world up is nonzero), so the lookAt basis is well defined. -/
def okSeq : SimState → List TickInput → Prop
  | _, [] => True
  | s, i :: is =>
      (i.g.resetUp = true →
        0 < (dirOfQuat s.camera.orientation).x ^ 2
          + (dirOfQuat s.camera.orientation).z ^ 2)
      ∧ okSeq (tick s i) is

/-- One frame preserves unit orientation norm. -/
lemma tick_preserves_unit (s : SimState) (i : TickInput)
    (hq : Quat.normSq s.camera.orientation = 1)
    (hreset : i.g.resetUp = true →
      0 < (dirOfQuat s.camera.orientation).x ^ 2
        + (dirOfQuat s.camera.orientation).z ^ 2) :
    Quat.normSq (tick s i).camera.orientation = 1 := by
  unfold tick
  rw [updateCamera_orientation]
  unfold postLookCamera lookStep
  by_cases hp : i.ms.pressedLeft = true
  · rw [if_pos hp]
    exact qNormalize_normSq _
  · rw [if_neg hp]
    unfold resetStep
    by_cases hr : ({ i.g with moveSpeed := s.moveSpeed }
        : CameraMovement).resetUp = true
    · rw [if_pos hr]
      exact (setUpVector_unit_dir s.camera hq (hreset hr)).1
    · rw [if_neg hr]
      exact hq

/-- A whole run of frames preserves unit orientation norm. -/
lemma foldl_preserves_unit (l : List TickInput) : ∀ s : SimState,
    Quat.normSq s.camera.orientation = 1 → okSeq s l →
    Quat.normSq (List.foldl tick s l).camera.orientation = 1 := by
  induction l with
  | nil => intro s hq _; exact hq
  | cons i is ih =>
      intro s hq hok
      rw [List.foldl_cons]
      exact ih (tick s i) (tick_preserves_unit s i hq hok.1) hok.2

/-- C5 (amended): starting from a unit orientation, after any sequence of
update calls in which every reset-up frame happens at a non-vertical view
direction, the orientation norm is within 1e-5 of 1 - in this real-number
model it is exactly 1, since the look step renormalizes and the reset step
produces a unit quaternion.  At a vertical view the reset degenerates and
the invariant fails (see the counterexample). -/
theorem orientation_unit_norm_invariant (s : SimState) (l : List TickInput)
    (hq : Quat.normSq s.camera.orientation = 1) (hok : okSeq s l) :
    |Quat.length (List.foldl tick s l).camera.orientation - 1| ≤ 1 / 100000 := by
  have key := foldl_preserves_unit l s hq hok
  unfold Quat.length
  rw [key, Real.sqrt_one]
  norm_num

/-- Witness for the unit-norm theorem on a concrete one-frame reset run. -/
theorem orientation_unit_norm_witness :
    Quat.normSq rollState.camera.orientation = 1
    ∧ okSeq rollState [resetTick]
    ∧ |Quat.length (List.foldl tick rollState
          [resetTick]).camera.orientation - 1| ≤ 1 / 100000 := by
  have hq : Quat.normSq rollState.camera.orientation = 1 := by
    norm_num [Quat.normSq, rollState, rollCamera]
  have hok : okSeq rollState [resetTick] := by
    refine ⟨fun _ => ?_, trivial⟩
    norm_num [dirOfQuat, mat3_cast, rollState, rollCamera]
  exact ⟨hq, hok, orientation_unit_norm_invariant rollState [resetTick] hq hok⟩

/-- The rotation matrix of a quaternion is even: negating all four
components leaves it unchanged. -/
lemma mat3_cast_neg (q : Quat) :
    mat3_cast ⟨-q.w, -q.x, -q.y, -q.z⟩ = mat3_cast q := by
  unfold mat3_cast
  ext <;> ring

set_option maxHeartbeats 1000000 in
/-- quat_cast of the rotation matrix of a unit quaternion recovers the
quaternion up to overall sign, in every branch of the scan. -/
lemma quat_cast3_mat3_cast (q : Quat) (hq : Quat.normSq q = 1) :
    quat_cast3 (mat3_cast q) = q
    ∨ quat_cast3 (mat3_cast q) = ⟨-q.w, -q.x, -q.y, -q.z⟩ := by
  obtain ⟨w, x, y, z⟩ := q
  unfold Quat.normSq at hq
  simp only [quat_cast3, mat3_cast]
  split_ifs with h3 h2 h1
  · -- branch Z: pivot z
    obtain ⟨hWX, hYlt⟩ := max_lt_iff.mp h3
    obtain ⟨hWlt, hXlt⟩ := max_lt_iff.mp hWX
    have hzsq : 0 < z * z := by nlinarith [hWlt, hXlt, hYlt, hq]
    have hz0 : z ≠ 0 := by
      intro h0
      rw [h0] at hzsq
      simp at hzsq
    rw [show 1 - 2 * (x * x + y * y) - (1 - 2 * (y * y + z * z))
          - (1 - 2 * (x * x + z * z)) + 1 = (2 * z) ^ 2 by ring,
        Real.sqrt_sq_eq_abs]
    rcases lt_or_gt_of_ne hz0 with hneg | hpos
    · rw [abs_of_neg (by linarith : 2 * z < 0)]
      refine Or.inr ?_
      simp only [Quat.mk.injEq]
      refine ⟨?_, ?_, ?_, ?_⟩ <;> field_simp <;> ring
    · rw [abs_of_pos (by linarith : 0 < 2 * z)]
      refine Or.inl ?_
      simp only [Quat.mk.injEq]
      refine ⟨?_, ?_, ?_, ?_⟩ <;> field_simp <;> ring
  · -- branch Y: pivot y
    obtain ⟨hWlt, hXlt⟩ := max_lt_iff.mp h2
    have hZle := not_lt.mp h3
    rw [max_eq_right (le_of_lt h2)] at hZle
    have hysq : 0 < y * y := by nlinarith [hWlt, hXlt, hZle, hq]
    have hy0 : y ≠ 0 := by
      intro h0
      rw [h0] at hysq
      simp at hysq
    rw [show 1 - 2 * (x * x + z * z) - (1 - 2 * (y * y + z * z))
          - (1 - 2 * (x * x + y * y)) + 1 = (2 * y) ^ 2 by ring,
        Real.sqrt_sq_eq_abs]
    rcases lt_or_gt_of_ne hy0 with hneg | hpos
    · rw [abs_of_neg (by linarith : 2 * y < 0)]
      refine Or.inr ?_
      simp only [Quat.mk.injEq]
      refine ⟨?_, ?_, ?_, ?_⟩ <;> field_simp <;> ring
    · rw [abs_of_pos (by linarith : 0 < 2 * y)]
      refine Or.inl ?_
      simp only [Quat.mk.injEq]
      refine ⟨?_, ?_, ?_, ?_⟩ <;> field_simp <;> ring
  · -- branch X: pivot x
    have hWlt := h1
    have hmaxX : max (1 - 2 * (y * y + z * z) + (1 - 2 * (x * x + z * z))
          + (1 - 2 * (x * x + y * y)))
          (1 - 2 * (y * y + z * z) - (1 - 2 * (x * x + z * z))
          - (1 - 2 * (x * x + y * y)))
        = 1 - 2 * (y * y + z * z) - (1 - 2 * (x * x + z * z))
          - (1 - 2 * (x * x + y * y)) := max_eq_right (le_of_lt h1)
    have hYle := not_lt.mp h2
    rw [hmaxX] at hYle
    have hZle := not_lt.mp h3
    rw [hmaxX, max_eq_left hYle] at hZle
    have hxsq : 0 < x * x := by nlinarith [hWlt, hYle, hZle, hq]
    have hx0 : x ≠ 0 := by
      intro h0
      rw [h0] at hxsq
      simp at hxsq
    rw [show 1 - 2 * (y * y + z * z) - (1 - 2 * (x * x + z * z))
          - (1 - 2 * (x * x + y * y)) + 1 = (2 * x) ^ 2 by ring,
        Real.sqrt_sq_eq_abs]
    rcases lt_or_gt_of_ne hx0 with hneg | hpos
    · rw [abs_of_neg (by linarith : 2 * x < 0)]
      refine Or.inr ?_
      simp only [Quat.mk.injEq]
      refine ⟨?_, ?_, ?_, ?_⟩ <;> field_simp <;> ring
    · rw [abs_of_pos (by linarith : 0 < 2 * x)]
      refine Or.inl ?_
      simp only [Quat.mk.injEq]
      refine ⟨?_, ?_, ?_, ?_⟩ <;> field_simp <;> ring
  · -- branch W: pivot w
    have hXle := not_lt.mp h1
    have hmaxW : max (1 - 2 * (y * y + z * z) + (1 - 2 * (x * x + z * z))
          + (1 - 2 * (x * x + y * y)))
          (1 - 2 * (y * y + z * z) - (1 - 2 * (x * x + z * z))
          - (1 - 2 * (x * x + y * y)))
        = 1 - 2 * (y * y + z * z) + (1 - 2 * (x * x + z * z))
          + (1 - 2 * (x * x + y * y)) := max_eq_left hXle
    have hYle := not_lt.mp h2
    rw [hmaxW] at hYle
    have hZle := not_lt.mp h3
    rw [hmaxW, max_eq_left hYle] at hZle
    have hwsq : 0 < w * w := by nlinarith [hXle, hYle, hZle, hq]
    have hw0 : w ≠ 0 := by
      intro h0
      rw [h0] at hwsq
      simp at hwsq
    rw [show 1 - 2 * (y * y + z * z) + (1 - 2 * (x * x + z * z))
          + (1 - 2 * (x * x + y * y)) + 1 = (2 * w) ^ 2
          by linear_combination (-4 : ℝ) * hq,
        Real.sqrt_sq_eq_abs]
    rcases lt_or_gt_of_ne hw0 with hneg | hpos
    · rw [abs_of_neg (by linarith : 2 * w < 0)]
      refine Or.inr ?_
      simp only [Quat.mk.injEq]
      refine ⟨?_, ?_, ?_, ?_⟩ <;> field_simp <;> ring
    · rw [abs_of_pos (by linarith : 0 < 2 * w)]
      refine Or.inl ?_
      simp only [Quat.mk.injEq]
      refine ⟨?_, ?_, ?_, ?_⟩ <;> field_simp <;> ring

/-- Concrete fixture: camera looking straight down the world vertical.
The orientation (1/2, 1/2, 1/2, 1/2) is the unit quaternion rotating 120
degrees about (1, 1, 1); its encoded view direction is (0, -1, 0). -/
noncomputable def verticalCamera : Camera := ⟨⟨0, 0, 0⟩, ⟨1 / 2, 1 / 2, 1 / 2, 1 / 2⟩⟩

/-- Concrete fixture: simulation state holding the downward-looking
camera. -/
noncomputable def verticalState : SimState := ⟨verticalCamera, msUp, ⟨0, 0, 0⟩⟩

/-- quat_cast of the degenerate lookAt matrix produced at a vertical view:
the basis vectors s and u collapse to zero and the cast returns the
non-unit quaternion (1/2, 1/2, 0, 0). -/
lemma quat_cast3_vertMat :
    quat_cast3 ⟨0, 0, 0, 0, 0, 1, 0, 0, 0⟩ = ⟨1 / 2, 1 / 2, 0, 0⟩ := by
  unfold quat_cast3
  norm_num

/-- At the vertical view the cross product in lookAt vanishes, its
normalization divides by zero (NaN in the float code, zero in this
real-number model) and setUpVector returns a non-unit orientation. -/
lemma setUpVector_vertical :
    (setUpVector verticalCamera ⟨0, 1, 0⟩).orientation = ⟨1 / 2, 1 / 2, 0, 0⟩ := by
  have h02 : (getViewMatrix verticalCamera).m02 = 0 := by
    norm_num [getViewMatrix, mat4mul, mat4_cast, mat3_cast, translate, verticalCamera]
  have h12 : (getViewMatrix verticalCamera).m12 = 1 := by
    norm_num [getViewMatrix, mat4mul, mat4_cast, mat3_cast, translate, verticalCamera]
  have h22 : (getViewMatrix verticalCamera).m22 = 0 := by
    norm_num [getViewMatrix, mat4mul, mat4_cast, mat3_cast, translate, verticalCamera]
  have hdirv : (⟨-(getViewMatrix verticalCamera).m02, -(getViewMatrix verticalCamera).m12,
      -(getViewMatrix verticalCamera).m22⟩ : Vec3) = ⟨0, -1, 0⟩ := by
    rw [h02, h12, h22]
    ext <;> norm_num
  simp only [setUpVector]
  rw [hdirv]
  have hpos : verticalCamera.pos = ⟨0, 0, 0⟩ := rfl
  rw [hpos]
  have hcenter : (⟨0, 0, 0⟩ : Vec3) + ⟨0, -1, 0⟩ = ⟨0, -1, 0⟩ := by
    ext <;> norm_num
  rw [hcenter]
  have hsub : (⟨0, -1, 0⟩ : Vec3) - ⟨0, 0, 0⟩ = ⟨0, -1, 0⟩ := by
    ext <;> norm_num
  have hnf : Vec3.normalize ⟨0, -1, 0⟩ = ⟨0, -1, 0⟩ := by
    unfold Vec3.normalize Vec3.dot
    norm_num
  have hc1 : Vec3.cross ⟨0, -1, 0⟩ ⟨0, 1, 0⟩ = ⟨0, 0, 0⟩ := by
    unfold Vec3.cross
    ext <;> norm_num
  have hn1 : Vec3.normalize ⟨0, 0, 0⟩ = ⟨0, 0, 0⟩ := by
    unfold Vec3.normalize Vec3.dot
    norm_num
  have hc2 : Vec3.cross ⟨0, 0, 0⟩ ⟨0, -1, 0⟩ = ⟨0, 0, 0⟩ := by
    unfold Vec3.cross
    ext <;> norm_num
  have hLA : upper3 (lookAt ⟨0, 0, 0⟩ ⟨0, -1, 0⟩ ⟨0, 1, 0⟩)
      = ⟨0, 0, 0, 0, 0, 1, 0, 0, 0⟩ := by
    simp only [lookAt, upper3]
    rw [hsub, hnf, hc1, hn1, hc2]
    ext <;> norm_num
  show quat_cast4 (lookAt ⟨0, 0, 0⟩ ⟨0, -1, 0⟩ ⟨0, 1, 0⟩) = _
  unfold quat_cast4
  rw [hLA]
  exact quat_cast3_vertMat

/-- The direction encoded by the degenerate reset output (1/2, 1/2, 0, 0):
a non-unit vector that is no longer the original view direction. -/
lemma dirOfQuat_vert1 :
    dirOfQuat (⟨1 / 2, 1 / 2, 0, 0⟩ : Quat) = ⟨0, -(1 / 2), -(1 / 2)⟩ := by
  unfold dirOfQuat mat3_cast
  ext <;> norm_num

/-- The vertical fixture's encoded view direction is straight down. -/
lemma dirOfQuat_vertical : dirOfQuat verticalCamera.orientation = ⟨0, -1, 0⟩ := by
  ext <;> norm_num [dirOfQuat, mat3_cast, verticalCamera]

/-- Counterexample to C5 as stated: one reset frame at the vertical view
direction (a unit orientation) leaves the orientation with norm
sqrt(1/2), far outside the 1e-5 tolerance around 1; the float code
divides by zero at the same place and produces NaN. -/
theorem vertical_reset_breaks_unit_norm :
    Quat.normSq verticalState.camera.orientation = 1
    ∧ ¬ |Quat.length (List.foldl tick verticalState
          [resetTick]).camera.orientation - 1| ≤ 1 / 100000 := by
  constructor
  · norm_num [Quat.normSq, verticalState, verticalCamera]
  · have h1 : (List.foldl tick verticalState [resetTick]).camera.orientation
        = ⟨1 / 2, 1 / 2, 0, 0⟩ := by
      show (tick verticalState resetTick).camera.orientation = _
      unfold tick
      rw [updateCamera_orientation]
      unfold postLookCamera
      rw [lookStep_no_drag _ _ _ _ _ rfl, resetStep_on _ _ rfl]
      exact setUpVector_vertical
    rw [h1]
    have hlen : Quat.length (⟨1 / 2, 1 / 2, 0, 0⟩ : Quat) = Real.sqrt (1 / 2) := by
      unfold Quat.length Quat.normSq
      norm_num
    rw [hlen]
    intro hle
    have hsq : Real.sqrt (1 / 2) ^ 2 = 1 / 2 := Real.sq_sqrt (by norm_num)
    have hnn : 0 ≤ Real.sqrt (1 / 2) := Real.sqrt_nonneg _
    have hub : Real.sqrt (1 / 2) ≤ 3 / 4 := by
      nlinarith [sq_nonneg (Real.sqrt (1 / 2) - 3 / 4)]
    have habs : |Real.sqrt (1 / 2) - 1| = 1 - Real.sqrt (1 / 2) := by
      rw [abs_of_neg (by linarith : Real.sqrt (1 / 2) - 1 < 0)]
      ring
    rw [habs] at hle
    linarith

/-- A normalized vector with positive squared length is a unit vector. -/
lemma normalize_unit (d : Vec3) (hd : 0 < Vec3.dot d d) :
    Vec3.dot (Vec3.normalize d) (Vec3.normalize d) = 1 := by
  have hL2 : Real.sqrt (Vec3.dot d d) ^ 2 = Vec3.dot d d := Real.sq_sqrt (le_of_lt hd)
  have hLne : Real.sqrt (Vec3.dot d d) ≠ 0 :=
    ne_of_gt (Real.sqrt_pos.mpr hd)
  unfold Vec3.dot at hL2 hLne ⊢
  unfold Vec3.normalize Vec3.dot
  simp only [Vec3.smul_def]
  field_simp
  linear_combination -hL2

/-- Normalization is idempotent on vectors of positive squared length. -/
lemma normalize_normalize (d : Vec3) (hd : 0 < Vec3.dot d d) :
    Vec3.normalize (Vec3.normalize d) = Vec3.normalize d := by
  have h1 := normalize_unit d hd
  rw [show Vec3.normalize (Vec3.normalize d)
      = (1 / Real.sqrt (Vec3.dot (Vec3.normalize d) (Vec3.normalize d)))
          • Vec3.normalize d from rfl]
  rw [h1, Real.sqrt_one]
  ext <;> simp

/-- lookAt normalizes the forward offset first, so a nonzero offset and its
normalization produce the same matrix. -/
lemma lookAt_normalize_dir (eye d : Vec3) (hd : 0 < Vec3.dot d d) :
    lookAt eye (eye + d) ⟨0, 1, 0⟩ = lookAt eye (eye + Vec3.normalize d) ⟨0, 1, 0⟩ := by
  have h1 : (eye + d) - eye = d := by ext <;> simp
  have h2 : (eye + Vec3.normalize d) - eye = Vec3.normalize d := by
    ext <;> simp
  simp only [lookAt]
  rw [h1, h2, normalize_normalize d hd]

/-- setUpVector_core extended to any nonzero forward offset whose
normalization has a nonzero horizontal part: the rebuilt orientation is a
unit quaternion. -/
lemma setUpVector_core_general (eye d : Vec3) (hd : 0 < Vec3.dot d d)
    (hpos : 0 < (Vec3.normalize d).x ^ 2 + (Vec3.normalize d).z ^ 2) :
    Quat.normSq (quat_cast4 (lookAt eye (eye + d) ⟨0, 1, 0⟩)) = 1 := by
  have hu := normalize_unit d hd
  have hf : (Vec3.normalize d).x ^ 2 + (Vec3.normalize d).y ^ 2
      + (Vec3.normalize d).z ^ 2 = 1 := by
    unfold Vec3.dot at hu
    linear_combination hu
  have hcore := setUpVector_core eye (Vec3.normalize d).x (Vec3.normalize d).y
      (Vec3.normalize d).z hf hpos
  have heta : (⟨(Vec3.normalize d).x, (Vec3.normalize d).y, (Vec3.normalize d).z⟩
      : Vec3) = Vec3.normalize d := rfl
  rw [heta] at hcore
  rw [lookAt_normalize_dir eye d hd]
  exact hcore.1

/-- Counterexample to C9 as stated: at the vertical view direction (a unit
orientation) the reset neither preserves the view direction nor is
idempotent: the first application returns the non-unit quaternion
(1/2, 1/2, 0, 0) with a different direction, and the second application,
now at a non-vertical direction, returns a unit quaternion, so the two
results differ.  The float code divides by zero here and yields NaN. -/
theorem vertical_reset_not_idempotent :
    Quat.normSq verticalCamera.orientation = 1
    ∧ dirOfQuat (setUpVector verticalCamera ⟨0, 1, 0⟩).orientation
        ≠ dirOfQuat verticalCamera.orientation
    ∧ setUpVector (setUpVector verticalCamera ⟨0, 1, 0⟩) ⟨0, 1, 0⟩
        ≠ setUpVector verticalCamera ⟨0, 1, 0⟩ := by
  refine ⟨by norm_num [Quat.normSq, verticalCamera], ?_, ?_⟩
  · rw [setUpVector_vertical, dirOfQuat_vert1, dirOfQuat_vertical]
    intro h
    have hy := congrArg Vec3.y h
    norm_num at hy
  · have hdz : (Vec3.normalize ⟨0, -(1 / 2), -(1 / 2)⟩).z < 0 := by
      have hdot : Vec3.dot (⟨0, -(1 / 2), -(1 / 2)⟩ : Vec3) ⟨0, -(1 / 2), -(1 / 2)⟩
          = 1 / 2 := by
        unfold Vec3.dot
        norm_num
      have hs0 : 0 < Real.sqrt (1 / 2) := Real.sqrt_pos.mpr (by norm_num)
      show (Vec3.normalize ⟨0, -(1 / 2), -(1 / 2)⟩).z < 0
      unfold Vec3.normalize
      rw [hdot]
      simp only [Vec3.smul_def]
      show 1 / Real.sqrt (1 / 2) * -(1 / 2) < 0
      have : 0 < 1 / Real.sqrt (1 / 2) := by positivity
      nlinarith
    have hpos1 : 0 < (Vec3.normalize ⟨0, -(1 / 2), -(1 / 2)⟩).x ^ 2
        + (Vec3.normalize ⟨0, -(1 / 2), -(1 / 2)⟩).z ^ 2 := by
      nlinarith [sq_nonneg (Vec3.normalize ⟨0, -(1 / 2), -(1 / 2)⟩).x, hdz]
    intro h
    have hL : Quat.normSq (setUpVector (setUpVector verticalCamera ⟨0, 1, 0⟩)
        ⟨0, 1, 0⟩).orientation = 1 := by
      rw [setUpVector_eq (setUpVector verticalCamera ⟨0, 1, 0⟩)]
      show Quat.normSq (quat_cast4 (lookAt (setUpVector verticalCamera ⟨0, 1, 0⟩).pos
          ((setUpVector verticalCamera ⟨0, 1, 0⟩).pos
            + dirOfQuat (setUpVector verticalCamera ⟨0, 1, 0⟩).orientation)
          ⟨0, 1, 0⟩)) = 1
      rw [setUpVector_vertical, dirOfQuat_vert1]
      exact setUpVector_core_general _ _ (by unfold Vec3.dot; norm_num) hpos1
    rw [h, setUpVector_vertical] at hL
    norm_num [Quat.normSq] at hL

/-- C9 (amended): on every state with a unit orientation and a
non-vertical view direction the up-vector reset is idempotent: applied
twice in a row with no intervening movement or look input it yields the
same orientation both times, it preserves the current view direction, and
on an already-aligned up vector (second rotation row equal to world up) it
produces no visible change: the rotation matrix of the orientation, hence
the view, is unchanged (the quaternion may only flip overall sign).  At a
vertical view the reset degenerates and both idempotence and direction
preservation fail (see the counterexample). -/
theorem up_reset_idempotent (camera : Camera)
    (hq : Quat.normSq camera.orientation = 1)
    (hd : 0 < (dirOfQuat camera.orientation).x ^ 2
      + (dirOfQuat camera.orientation).z ^ 2) :
    setUpVector (setUpVector camera ⟨0, 1, 0⟩) ⟨0, 1, 0⟩
        = setUpVector camera ⟨0, 1, 0⟩
    ∧ dirOfQuat (setUpVector camera ⟨0, 1, 0⟩).orientation
        = dirOfQuat camera.orientation
    ∧ ((mat3_cast camera.orientation).m01 = 0
        ∧ (mat3_cast camera.orientation).m11 = 1
        ∧ (mat3_cast camera.orientation).m21 = 0 →
        mat3_cast (setUpVector camera ⟨0, 1, 0⟩).orientation
            = mat3_cast camera.orientation
        ∧ (setUpVector camera ⟨0, 1, 0⟩).pos = camera.pos) := by
  have hsu := setUpVector_unit_dir camera hq hd
  have e1 := setUpVector_eq camera
  refine ⟨?_, hsu.2, ?_⟩
  · have e2 := setUpVector_eq (setUpVector camera ⟨0, 1, 0⟩)
    have hpos : (setUpVector camera ⟨0, 1, 0⟩).pos = camera.pos := by
      rw [e1]
    rw [e2, hpos, hsu.2, ← e1]
  · rintro ⟨h01, h11, h21⟩
    have horth : (mat3_cast camera.orientation).m01 * (mat3_cast camera.orientation).m02
        + (mat3_cast camera.orientation).m11 * (mat3_cast camera.orientation).m12
        + (mat3_cast camera.orientation).m21 * (mat3_cast camera.orientation).m22
        = 0 := by
      unfold mat3_cast
      unfold Quat.normSq at hq
      linear_combination ((-4) * camera.orientation.y * camera.orientation.z) * hq
    have hm12 : (mat3_cast camera.orientation).m12 = 0 := by
      rw [h01, h11, h21] at horth
      linarith [horth]
    have hc0 : (mat3_cast camera.orientation).m00
        = (mat3_cast camera.orientation).m11 * (mat3_cast camera.orientation).m22
          - (mat3_cast camera.orientation).m21 * (mat3_cast camera.orientation).m12 := by
      unfold mat3_cast
      unfold Quat.normSq at hq
      linear_combination ((-4) * camera.orientation.x ^ 2) * hq
    have hc1 : (mat3_cast camera.orientation).m10
        = (mat3_cast camera.orientation).m21 * (mat3_cast camera.orientation).m02
          - (mat3_cast camera.orientation).m01 * (mat3_cast camera.orientation).m22 := by
      unfold mat3_cast
      unfold Quat.normSq at hq
      linear_combination ((-4) * camera.orientation.x * camera.orientation.y) * hq
    have hc2 : (mat3_cast camera.orientation).m20
        = (mat3_cast camera.orientation).m01 * (mat3_cast camera.orientation).m12
          - (mat3_cast camera.orientation).m11 * (mat3_cast camera.orientation).m02 := by
      unfold mat3_cast
      unfold Quat.normSq at hq
      linear_combination ((-4) * camera.orientation.x * camera.orientation.z) * hq
    have hA0 : (mat3_cast camera.orientation).m00
        = (mat3_cast camera.orientation).m22 := by
      rw [hc0, h11, h21, hm12]
      ring
    have hB1 : (mat3_cast camera.orientation).m10 = 0 := by
      rw [hc1, h21, h01]
      ring
    have hB2 : (mat3_cast camera.orientation).m20
        = -(mat3_cast camera.orientation).m02 := by
      rw [hc2, h01, h11]
      ring
    have hy0 : (dirOfQuat camera.orientation).y = 0 := by
      show -(mat3_cast camera.orientation).m12 = 0
      rw [hm12]
      ring
    have hf := dirOfQuat_unit camera.orientation hq
    have hxz1 : (dirOfQuat camera.orientation).x ^ 2
        + (dirOfQuat camera.orientation).z ^ 2 = 1 := by
      rw [hy0] at hf
      nlinarith [hf]
    have heta : (⟨(dirOfQuat camera.orientation).x, (dirOfQuat camera.orientation).y,
        (dirOfQuat camera.orientation).z⟩ : Vec3) = dirOfQuat camera.orientation := rfl
    have hs1 : Real.sqrt ((dirOfQuat camera.orientation).x ^ 2
        + (dirOfQuat camera.orientation).z ^ 2) = 1 := by
      rw [hxz1, Real.sqrt_one]
    have hL := upper3_lookAt camera.pos (dirOfQuat camera.orientation).x
        (dirOfQuat camera.orientation).y (dirOfQuat camera.orientation).z 1 hf
        (by rw [hxz1]; norm_num) one_pos hs1
    rw [heta] at hL
    have hLq : upper3 (lookAt camera.pos
          (camera.pos + dirOfQuat camera.orientation) ⟨0, 1, 0⟩)
        = mat3_cast camera.orientation := by
      rw [hL]
      ext
      · show -(dirOfQuat camera.orientation).z / 1 = (mat3_cast camera.orientation).m00
        rw [show (dirOfQuat camera.orientation).z
            = -(mat3_cast camera.orientation).m22 from rfl, hA0]
        ring
      · show -((dirOfQuat camera.orientation).y * ((dirOfQuat camera.orientation).x / 1))
            = (mat3_cast camera.orientation).m01
        rw [hy0, h01]
        ring
      · show -((dirOfQuat camera.orientation).x / 1 * 1)
            = (mat3_cast camera.orientation).m02
        rw [show (dirOfQuat camera.orientation).x
            = -(mat3_cast camera.orientation).m02 from rfl]
        ring
      · show (0 : ℝ) = (mat3_cast camera.orientation).m10
        rw [hB1]
      · show (1 : ℝ) = (mat3_cast camera.orientation).m11
        rw [h11]
      · show -(dirOfQuat camera.orientation).y = (mat3_cast camera.orientation).m12
        rw [hy0, hm12]
        ring
      · show (dirOfQuat camera.orientation).x / 1 = (mat3_cast camera.orientation).m20
        rw [show (dirOfQuat camera.orientation).x
            = -(mat3_cast camera.orientation).m02 from rfl, hB2]
        ring
      · show (dirOfQuat camera.orientation).y * (-(dirOfQuat camera.orientation).z / 1)
            = (mat3_cast camera.orientation).m21
        rw [hy0, h21]
        ring
      · show -(dirOfQuat camera.orientation).z / 1 * 1
            = (mat3_cast camera.orientation).m22
        rw [show (dirOfQuat camera.orientation).z
            = -(mat3_cast camera.orientation).m22 from rfl]
        ring
    constructor
    · rw [e1]
      show mat3_cast (quat_cast4 (lookAt camera.pos
          (camera.pos + dirOfQuat camera.orientation) ⟨0, 1, 0⟩))
        = mat3_cast camera.orientation
      unfold quat_cast4
      rw [hLq]
      rcases quat_cast3_mat3_cast camera.orientation hq with h | h
      · rw [h]
      · rw [h, mat3_cast_neg]
    · rw [e1]

/-- Witness for the up-reset idempotence theorem at a concrete rolled
camera. -/
theorem up_reset_idempotent_witness :
    Quat.normSq rollCamera.orientation = 1
    ∧ 0 < (dirOfQuat rollCamera.orientation).x ^ 2
        + (dirOfQuat rollCamera.orientation).z ^ 2
    ∧ setUpVector (setUpVector rollCamera ⟨0, 1, 0⟩) ⟨0, 1, 0⟩
        = setUpVector rollCamera ⟨0, 1, 0⟩ := by
  have hq : Quat.normSq rollCamera.orientation = 1 := by
    norm_num [Quat.normSq, rollCamera]
  have hd : 0 < (dirOfQuat rollCamera.orientation).x ^ 2
      + (dirOfQuat rollCamera.orientation).z ^ 2 := by
    norm_num [dirOfQuat, mat3_cast, rollCamera]
  exact ⟨hq, hd, (up_reset_idempotent rollCamera hq hd).1⟩

end MV
